import Mathlib

/-!
Verification of the Ollama2OpenAI protocol-translation gateway.

This file shallowly embeds the parts of the gateway's JavaScript source that
the verified properties are about:

* the reasoning-directive (`think`) resolution inside `convertToOllamaRequest`
  and `convertAnthropicToOllamaRequest` (src/routes/api.js, anthropic route);
* the NDJSON incremental parser `createNdjsonParser`;
* the model-access check `checkModelAccess`;
* the error mappers `createOpenAIError` and `createAnthropicError`;
* the embeddings request converter `convertToOllamaEmbedRequest`;
* the OpenAI streaming handler's per-event callback and the non-stream
  converter `convertToOpenAIResponse`;
* the Anthropic streaming handler `handleStreamingAnthropicResponse`
  (block open/close state machine).

JavaScript dynamic values that can flow into the `think` field are modelled
by the inductive `JSVal`; option bags, messages and other fields that do not
influence the verified properties are not modelled (they are independent of
the `think` field, of the emitted block structure and of usage accounting).
-/

namespace Ollama2OpenAI

/-- A dynamically-typed JavaScript value, restricted to the shapes that the
gateway's reasoning-directive code can observe: booleans, strings and
numbers (any other value behaves like `num` in every comparison the code
performs, i.e. it is neither `=== "minimal"` nor in the effort list nor
`=== false`). -/
inductive JSVal where
  | bool (b : Bool)
  | str (s : String)
  | num (n : Int)
deriving DecidableEq, Repr

/-- The `reasoning` object of an OpenAI/OpenRouter-dialect request:
`reasoning.enabled` and `reasoning.effort`, each possibly absent
(`undefined`). -/
structure OpenAIReasoning where
  enabled : Option JSVal := none
  effort : Option JSVal := none
deriving DecidableEq, Repr

/-- The fields of an OpenAI-dialect chat request that participate in
reasoning-directive resolution: raw `think`, `reasoning_effort` and the
`reasoning` object. -/
structure OpenAIThinkFields where
  think : Option JSVal := none
  reasoning_effort : Option JSVal := none
  reasoning : Option OpenAIReasoning := none
deriving DecidableEq, Repr

/-- The effort-string mapping used for both `reasoning_effort` and
`reasoning.effort` in `convertToOllamaRequest` (src/routes/api.js):
`"minimal"` maps to `false`, `"low"/"medium"/"high"` pass through, and any
other value (an unrecognized string, or a non-string, which is never a
member of the JS array `["low","medium","high"]`) maps to `true`. -/
def mapOpenAIEffort (v : JSVal) : JSVal :=
  match v with
  | .str s =>
      if s = "minimal" then .bool false
      else if s = "low" ∨ s = "medium" ∨ s = "high" then .str s
      else .bool true
  | _ => .bool true

/-- The `think`-resolution portion of `convertToOllamaRequest`
(src/routes/api.js, the block starting at "Apply think parameter from
overrides first"): the override's `think` is written first, then the
request-level chain `think` / `reasoning_effort` / `reasoning` overwrites
it; supplying both `reasoning.enabled` and `reasoning.effort` throws.
Returns the final value of `ollamaRequest.think` (`none` = field absent). -/
def convertToOllamaRequestThink (overrideThink : Option JSVal)
    (req : OpenAIThinkFields) : Except String (Option JSVal) :=
  -- `if (overrideThink !== undefined) ollamaRequest.think = overrideThink;`
  let base := overrideThink
  match req.think with
  | some v => .ok (some v)
  | none =>
    match req.reasoning_effort with
    | some e => .ok (some (mapOpenAIEffort e))
    | none =>
      match req.reasoning with
      | some r =>
          if r.enabled.isSome ∧ r.effort.isSome then
            .error "Cannot specify both reasoning.enabled and reasoning.effort in the same request"
          else match r.effort with
            | some e => .ok (some (mapOpenAIEffort e))
            | none =>
              if r.enabled = some (.bool false) then .ok (some (.bool false))
              else .ok (some (.bool true))
      | none => .ok base

/-- `mapThinkingValue` from the Anthropic route: booleans pass through;
strings are lower-cased, `"low"/"medium"/"high"` pass through,
`"minimal"` maps to `false`, anything else yields `undefined`. -/
def mapThinkingValue (v : JSVal) : Option JSVal :=
  match v with
  | .bool b => some (.bool b)
  | .str s =>
      let normalized := s.toLower
      if normalized = "low" ∨ normalized = "medium" ∨ normalized = "high" then
        some (.str normalized)
      else if normalized = "minimal" then some (.bool false)
      else none
  | _ => none

/-- `extractAnthropicThinkingPreference` from the Anthropic route: use
`request.thinking` if present, else `request.extra_body.think` if present,
else `undefined`. -/
def extractAnthropicThinkingPreference (thinking extraBodyThink : Option JSVal) :
    Option JSVal :=
  match thinking with
  | some v => mapThinkingValue v
  | none =>
    match extraBodyThink with
    | some v => mapThinkingValue v
    | none => none

/-- The `think`-resolution portion of `convertAnthropicToOllamaRequest`:
the override's `think` is written first, then the extracted request
preference overwrites it when defined. -/
def convertAnthropicRequestThink (overrideThink : Option JSVal)
    (thinking extraBodyThink : Option JSVal) : Option JSVal :=
  let base := overrideThink
  match extractAnthropicThinkingPreference thinking extraBodyThink with
  | some v => some v
  | none => base

/-- The five canonical backend `think` values named by the specification:
`true`, `false`, `"low"`, `"medium"`, `"high"`. -/
def isCanonicalThink (v : JSVal) : Prop :=
  v = .bool true ∨ v = .bool false ∨ v = .str "low" ∨ v = .str "medium" ∨ v = .str "high"

instance (v : JSVal) : Decidable (isCanonicalThink v) := by
  unfold isCanonicalThink; infer_instance

/-! ### NDJSON incremental parsing (`createNdjsonParser`)

The parser keeps a string buffer across chunks; each chunk is appended and
then complete lines (up to `\n`) are split off, trimmed, and JSON-parsed.
An empty (after trim) line is skipped; a line that fails to parse is
requeued (the trimmed line plus `\n` is prepended to the buffer) and
processing stops until more bytes arrive. Strings are modelled as lists of
characters and `JSON.parse` as an arbitrary partial parse function, since
chunking behaviour is independent of the concrete JSON grammar. -/

/-- JavaScript strings, modelled as lists of characters. -/
abbrev JStr := List Char

/-- Whitespace as removed by JavaScript `String.prototype.trim` (the ASCII
whitespace characters; the full JS set also contains exotic Unicode spaces
that never occur in NDJSON traffic). -/
def isJsWhitespace (c : Char) : Bool :=
  c = ' ' || c = '\t' || c = '\n' || c = '\r'

/-- JavaScript `trim`: drop whitespace from both ends. -/
def jsTrim (l : JStr) : JStr :=
  ((l.dropWhile isJsWhitespace).reverse.dropWhile isJsWhitespace).reverse

/-- Split a buffer at its first newline: `some (line, rest)` when a `\n`
exists (mirroring `buffer.indexOf('\n')`, `buffer.slice(0, idx)` and
`buffer.slice(idx + 1)`), `none` otherwise. -/
def splitAtNewline : JStr → Option (JStr × JStr)
  | [] => none
  | c :: cs =>
      if c = '\n' then some ([], cs)
      else (splitAtNewline cs).map (fun p => (c :: p.1, p.2))

lemma splitAtNewline_eq_some {l a b : JStr} (h : splitAtNewline l = some (a, b)) :
    l = a ++ '\n' :: b ∧ '\n' ∉ a := by
  induction l generalizing a b with
  | nil => simp [splitAtNewline] at h
  | cons c cs ih =>
    by_cases hc : c = '\n'
    · subst hc
      simp only [splitAtNewline, if_true, eq_self_iff_true, Option.some.injEq,
        Prod.mk.injEq, reduceIte] at h
      rw [← h.1, ← h.2]
      simp
    · simp only [splitAtNewline, if_neg hc] at h
      cases hs : splitAtNewline cs with
      | none => rw [hs] at h; simp at h
      | some p =>
        rw [hs] at h
        simp at h
        obtain ⟨ha, hb⟩ := h
        obtain ⟨h1, h2⟩ := ih (a := p.1) (b := p.2) (by rw [hs])
        subst ha hb
        refine ⟨by rw [h1]; simp, ?_⟩
        intro hmem
        rcases List.mem_cons.mp hmem with h | h
        · exact hc h.symm
        · exact h2 h

lemma splitAtNewline_none {l : JStr} (h : splitAtNewline l = none) : '\n' ∉ l := by
  induction l with
  | nil => simp
  | cons c cs ih =>
    by_cases hc : c = '\n'
    · subst hc; simp [splitAtNewline] at h
    · simp only [splitAtNewline, if_neg hc] at h
      cases hs : splitAtNewline cs with
      | none =>
        simp only [List.mem_cons, not_or]
        exact ⟨fun hn => hc hn.symm, ih hs⟩
      | some p => rw [hs] at h; simp at h

lemma splitAtNewline_append {a : JStr} (b : JStr) (ha : '\n' ∉ a) :
    splitAtNewline (a ++ '\n' :: b) = some (a, b) := by
  induction a with
  | nil => simp [splitAtNewline]
  | cons c cs ih =>
    have hc : c ≠ '\n' := fun h => ha (h ▸ List.mem_cons_self c cs)
    have hcs : '\n' ∉ cs := fun h => ha (List.mem_cons_of_mem c h)
    simp [splitAtNewline, hc, ih hcs]

lemma jsTrim_head_not_ws {l : JStr} {c : Char} {cs : JStr}
    (h : jsTrim l = c :: cs) : isJsWhitespace c = false := by
  set Z := l.dropWhile isJsWhitespace with hZ
  set W := Z.reverse.dropWhile isJsWhitespace with hW
  have hhead : W.getLast? = some c := by
    have : (jsTrim l).head? = some c := by rw [h]; rfl
    rw [jsTrim, ← hZ, ← hW, List.head?_reverse] at this
    exact this
  have hWne : W ≠ [] := by
    intro hnil; rw [hnil] at hhead; simp at hhead
  obtain ⟨u, hu⟩ := List.dropWhile_suffix (l := Z.reverse) isJsWhitespace
  have hZrev : Z.reverse.getLast? = some c := by
    rw [← hu, List.getLast?_append, hhead]; rfl
  rw [List.getLast?_reverse] at hZrev
  have := List.head?_dropWhile_not isJsWhitespace l
  rw [← hZ] at this
  rw [hZrev] at this
  exact this

lemma jsTrim_getLast_not_ws {l : JStr} {c : Char}
    (h : (jsTrim l).getLast? = some c) : isJsWhitespace c = false := by
  set Z := l.dropWhile isJsWhitespace with hZ
  set W := Z.reverse.dropWhile isJsWhitespace with hW
  have hhead : W.head? = some c := by
    rw [jsTrim, ← hZ, ← hW, List.getLast?_reverse] at h
    exact h
  have := List.head?_dropWhile_not isJsWhitespace Z.reverse
  rw [← hW, hhead] at this
  exact this

lemma dropWhile_eq_self_of_head {p : Char → Bool} {l : JStr}
    (h : ∀ c cs, l = c :: cs → p c = false) : l.dropWhile p = l := by
  cases l with
  | nil => rfl
  | cons c cs => rw [List.dropWhile_cons_of_neg]; simp [h c cs rfl]

lemma jsTrim_idem (l : JStr) : jsTrim (jsTrim l) = jsTrim l := by
  set t := jsTrim l with ht
  have h1 : t.dropWhile isJsWhitespace = t := by
    apply dropWhile_eq_self_of_head
    intro c cs hc
    simp [jsTrim_head_not_ws (ht ▸ hc)]
  have h2 : t.reverse.dropWhile isJsWhitespace = t.reverse := by
    apply dropWhile_eq_self_of_head
    intro c cs hc
    have : t.getLast? = some c := by
      rw [← List.head?_reverse, hc]; rfl
    simp [jsTrim_getLast_not_ws (ht ▸ this)]
  rw [jsTrim, h1, h2, List.reverse_reverse]

lemma mem_jsTrim {c : Char} {l : JStr} (h : c ∈ jsTrim l) : c ∈ l := by
  rw [jsTrim, List.mem_reverse] at h
  have h2 := (List.dropWhile_sublist (l := (l.dropWhile isJsWhitespace).reverse)
    isJsWhitespace).mem h
  rw [List.mem_reverse] at h2
  exact (List.dropWhile_sublist isJsWhitespace).mem h2

lemma newline_not_mem_jsTrim {l : JStr} (h : '\n' ∉ l) : '\n' ∉ jsTrim l :=
  fun hmem => h (mem_jsTrim hmem)

section NdjsonLoop

variable {α : Type}

/-- The line-splitting loop inside the closure returned by
`createNdjsonParser` (src/routes/api.js lines 9-27 and the identical copy in
the Anthropic route): repeatedly split off the text before the first `\n`,
trim it, skip it when empty, otherwise JSON-parse it; on success report the
object and continue; on failure requeue the trimmed line (plus the `\n`)
in front of the remaining buffer and stop. Returns the final buffer and the
objects reported, in order. `parse` stands for `JSON.parse` (returning
`none` where the JavaScript would throw). -/
def ndjsonProcessBuffer (parse : JStr → Option α) (buf : JStr) : JStr × List α :=
  match h : splitAtNewline buf with
  | none => (buf, [])
  | some (line, rest) =>
      let t := jsTrim line
      if t = [] then ndjsonProcessBuffer parse rest
      else
        match parse t with
        | some o =>
            let r := ndjsonProcessBuffer parse rest
            (r.1, o :: r.2)
        | none => (t ++ '\n' :: rest, [])
termination_by buf.length
decreasing_by
  all_goals
    simp only [(splitAtNewline_eq_some h).1, List.length_append, List.length_cons]
    omega

/-- The Unicode replacement character U+FFFD, which Node's UTF-8 decoder
substitutes for ill-formed byte subsequences. -/
def replacementChar : Char := Char.ofNat 0xFFFD

/-- Whether a byte is a UTF-8 continuation byte (`0x80..0xBF`). -/
def isUtf8Cont (b : Nat) : Bool := 0x80 ≤ b && b ≤ 0xBF

/-- `Buffer.toString('utf8')`, as applied by the handlers to each raw
chunk independently (the streams are consumed via `on('data', ...)` with
no `setEncoding`, so every chunk is decoded on its own): standard UTF-8
decoding with the WHATWG replacement policy — each maximal ill-formed
subsequence (including a multi-byte character truncated at the chunk
boundary) becomes one U+FFFD, and a failed continuation byte is
reprocessed from that byte. -/
def utf8DecodeGo : Nat → List Nat → JStr
  | _, [] => []
  | 0, _ :: _ => []
  | fuel + 1, b :: rest =>
    if b < 0x80 then Char.ofNat b :: utf8DecodeGo fuel rest
    else if 0xC2 ≤ b ∧ b ≤ 0xDF then
      match rest with
      | [] => [replacementChar]
      | b1 :: rest1 =>
        if isUtf8Cont b1 then
          Char.ofNat ((b - 0xC0) * 64 + (b1 - 0x80)) :: utf8DecodeGo fuel rest1
        else replacementChar :: utf8DecodeGo fuel rest
    else if 0xE0 ≤ b ∧ b ≤ 0xEF then
      match rest with
      | [] => [replacementChar]
      | b1 :: rest1 =>
        if (if b = 0xE0 then 0xA0 else 0x80) ≤ b1 ∧ b1 ≤ (if b = 0xED then 0x9F else 0xBF) then
          match rest1 with
          | [] => [replacementChar]
          | b2 :: rest2 =>
            if isUtf8Cont b2 then
              Char.ofNat ((b - 0xE0) * 4096 + (b1 - 0x80) * 64 + (b2 - 0x80)) ::
                utf8DecodeGo fuel rest2
            else replacementChar :: utf8DecodeGo fuel rest1
        else replacementChar :: utf8DecodeGo fuel rest
    else if 0xF0 ≤ b ∧ b ≤ 0xF4 then
      match rest with
      | [] => [replacementChar]
      | b1 :: rest1 =>
        if (if b = 0xF0 then 0x90 else 0x80) ≤ b1 ∧ b1 ≤ (if b = 0xF4 then 0x8F else 0xBF) then
          match rest1 with
          | [] => [replacementChar]
          | b2 :: rest2 =>
            if isUtf8Cont b2 then
              match rest2 with
              | [] => [replacementChar]
              | b3 :: rest3 =>
                if isUtf8Cont b3 then
                  Char.ofNat ((b - 0xF0) * 262144 + (b1 - 0x80) * 4096 +
                      (b2 - 0x80) * 64 + (b3 - 0x80)) :: utf8DecodeGo fuel rest3
                else replacementChar :: utf8DecodeGo fuel rest2
            else replacementChar :: utf8DecodeGo fuel rest1
        else replacementChar :: utf8DecodeGo fuel rest
    else replacementChar :: utf8DecodeGo fuel rest

/-- Decode a whole byte buffer; the fuel argument of `utf8DecodeGo` is a
termination device only — every step consumes at least one byte while
spending exactly one unit of fuel, so starting it at the buffer length,
the fuel never runs out. -/
def utf8Decode (l : List Nat) : JStr := utf8DecodeGo l.length l

/-- Feeding one raw byte chunk into the parser closure:
`buffer += chunk.toString('utf8')` decodes the chunk on its own and
appends the resulting characters to the string buffer, then the line loop
runs. -/
def ndjsonPumpBytes (parse : JStr → Option α) (buf : JStr) (chunk : List Nat) :
    JStr × List α :=
  ndjsonProcessBuffer parse (buf ++ utf8Decode chunk)

/-- Feeding a list of raw byte chunks into a fresh parser (initial buffer
`''`), collecting all reported objects in order. -/
def ndjsonFeedAllBytes (parse : JStr → Option α) (chunks : List (List Nat)) :
    JStr × List α :=
  chunks.foldl (fun acc c =>
    let r := ndjsonPumpBytes parse acc.1 c
    (r.1, acc.2 ++ r.2)) ([], [])

lemma ndjsonProcessBuffer_of_none {parse : JStr → Option α} {buf : JStr}
    (h : splitAtNewline buf = none) :
    ndjsonProcessBuffer parse buf = (buf, []) := by
  rw [ndjsonProcessBuffer]
  split
  · rfl
  · next heq => rw [h] at heq; cases heq

lemma ndjsonProcessBuffer_of_skip {parse : JStr → Option α} {buf line rest : JStr}
    (h : splitAtNewline buf = some (line, rest)) (ht : jsTrim line = []) :
    ndjsonProcessBuffer parse buf = ndjsonProcessBuffer parse rest := by
  rw [ndjsonProcessBuffer]
  split
  · next heq => rw [h] at heq; cases heq
  · next line' rest' heq =>
      rw [h] at heq
      cases heq
      simp [ht]

lemma ndjsonProcessBuffer_of_ok {parse : JStr → Option α} {buf line rest : JStr} {o : α}
    (h : splitAtNewline buf = some (line, rest)) (ht : jsTrim line ≠ [])
    (hp : parse (jsTrim line) = some o) :
    ndjsonProcessBuffer parse buf =
      ((ndjsonProcessBuffer parse rest).1, o :: (ndjsonProcessBuffer parse rest).2) := by
  rw [ndjsonProcessBuffer]
  split
  · next heq => rw [h] at heq; cases heq
  · next line' rest' heq =>
      rw [h] at heq
      cases heq
      simp [ht, hp]

lemma ndjsonProcessBuffer_of_fail {parse : JStr → Option α} {buf line rest : JStr}
    (h : splitAtNewline buf = some (line, rest)) (ht : jsTrim line ≠ [])
    (hp : parse (jsTrim line) = none) :
    ndjsonProcessBuffer parse buf = (jsTrim line ++ '\n' :: rest, []) := by
  rw [ndjsonProcessBuffer]
  split
  · next heq => rw [h] at heq; cases heq
  · next line' rest' heq =>
      rw [h] at heq
      cases heq
      simp [ht, hp]

/-- Chunk associativity of the NDJSON loop: running the loop on `b ++ c`
reports the objects of running it on `b` followed by those of running it on
the leftover buffer with `c` appended, and leaves the same final buffer. -/
theorem ndjsonProcessBuffer_append (parse : JStr → Option α) (b c : JStr) :
    ndjsonProcessBuffer parse (b ++ c) =
      ((ndjsonProcessBuffer parse ((ndjsonProcessBuffer parse b).1 ++ c)).1,
       (ndjsonProcessBuffer parse b).2 ++
         (ndjsonProcessBuffer parse ((ndjsonProcessBuffer parse b).1 ++ c)).2) := by
  cases h : splitAtNewline b with
  | none =>
    rw [ndjsonProcessBuffer_of_none h]
    simp
  | some p =>
    obtain ⟨line, rest⟩ := p
    obtain ⟨hb, hline⟩ := splitAtNewline_eq_some h
    have hsplit : splitAtNewline (b ++ c) = some (line, rest ++ c) := by
      rw [hb, List.append_assoc, List.cons_append]
      exact splitAtNewline_append (rest ++ c) hline
    have hlen : rest.length < b.length := by
      rw [hb]; simp; omega
    by_cases ht : jsTrim line = []
    · rw [ndjsonProcessBuffer_of_skip hsplit ht, ndjsonProcessBuffer_of_skip h ht]
      exact ndjsonProcessBuffer_append parse rest c
    · cases hp : parse (jsTrim line) with
      | some o =>
        rw [ndjsonProcessBuffer_of_ok hsplit ht hp, ndjsonProcessBuffer_of_ok h ht hp]
        have ih := ndjsonProcessBuffer_append parse rest c
        rw [ih]
        simp
      | none =>
        rw [ndjsonProcessBuffer_of_fail hsplit ht hp, ndjsonProcessBuffer_of_fail h ht hp]
        have hnl : '\n' ∉ jsTrim line := newline_not_mem_jsTrim hline
        have hsplit2 : splitAtNewline ((jsTrim line ++ '\n' :: rest) ++ c) =
            some (jsTrim line, rest ++ c) := by
          rw [List.append_assoc, List.cons_append]
          exact splitAtNewline_append (rest ++ c) hnl
        rw [ndjsonProcessBuffer_of_fail hsplit2 (by rw [jsTrim_idem]; exact ht)
          (by rw [jsTrim_idem]; exact hp)]
        simp [jsTrim_idem]
termination_by b.length

/-- Concatenation of NDJSON lines, each line terminated by a newline byte,
as produced by the backend. -/
def joinNdjsonLines (lines : List JStr) : JStr :=
  (lines.map (fun l => l ++ ['\n'])).flatten

end NdjsonLoop

/-! ### Model-access check (`checkModelAccess` middleware) -/

/-- The characters of the string `":latest"`. -/
def latestSuffix : JStr := [':', 'l', 'a', 't', 'e', 's', 't']

/-- The `hasAccess` expression of the `checkModelAccess` middleware
(src/routes/api.js lines 81-86 and the identical copy in the Anthropic
route): the allow-list contains `"*"`, the exact requested name, the name
with a `:latest` suffix stripped (`slice(0, -7)`), or — when the requested
name has no tag — the name with `:latest` appended. -/
def hasModelAccess (allowedModels : List JStr) (requestedModel : JStr) : Bool :=
  decide (['*'] ∈ allowedModels) ||
  decide (requestedModel ∈ allowedModels) ||
  (latestSuffix.isSuffixOf requestedModel &&
    decide (requestedModel.take (requestedModel.length - 7) ∈ allowedModels)) ||
  (!requestedModel.contains ':' && decide (requestedModel ++ latestSuffix ∈ allowedModels))

/-- An error envelope as produced by the gateway: HTTP status plus the
`type`/`code`/`message` fields of the JSON error body (`etype` stands for
the JSON field named `type`). -/
structure ErrorEnvelope where
  status : Nat
  etype : String
  code : String
  message : String
deriving DecidableEq, Repr

/-- The `checkModelAccess` middleware: trim the requested model name (an
absent name and an empty one are both rejected with 400 `missing_model`,
since `!requestedModel` catches `undefined` and `''`), then consult
`hasModelAccess`; denial is 403 `model_access_denied`.  The
`req.body.model || req.query.model` fallback is collapsed into the single
`bodyModel` argument. -/
def checkModelAccess (allowedModels : List JStr) (bodyModel : Option JStr) :
    Except ErrorEnvelope JStr :=
  match bodyModel with
  | none => .error ⟨400, "invalid_request_error", "missing_model", "No model specified"⟩
  | some raw =>
    let requestedModel := jsTrim raw
    if requestedModel = [] then
      .error ⟨400, "invalid_request_error", "missing_model", "No model specified"⟩
    else if hasModelAccess allowedModels requestedModel then
      .ok requestedModel
    else
      .error ⟨403, "permission_error", "model_access_denied", "Access denied for model"⟩

/-! ### Error mappers (`createOpenAIError`, `createAnthropicError`) -/

/-- The response body attached to a backend HTTP error, as far as the
mappers inspect it: a raw string, `{error: "..."}` with a string error,
`{error: {message, param, code}}` with an object error, `{message: "..."}`,
a falsy body, or any other shape. -/
inductive BackendErrorData where
  | absent
  | str (s : String)
  | errStr (e : String)
  | errObj (message : Option String) (param : Option String) (code : Option String)
  | msg (m : String)
  | other
deriving DecidableEq, Repr

/-- A caught axios error: an HTTP response (status and body) when the
backend answered, otherwise a transport-level error code, plus the error
message. -/
structure BackendError where
  response : Option (Nat × BackendErrorData) := none
  code : Option String := none
  message : Option String := none
deriving DecidableEq, Repr

/-- JavaScript `String.prototype.includes` (substring containment). -/
def jsIncludes (s sub : String) : Bool :=
  sub.isEmpty || (s.splitOn sub).length ≥ 2

/-- JavaScript `a || b` for an optional string `a`: the fallback is used
when `a` is `undefined` or the empty string. -/
def jsOrString (a : Option String) (b : String) : String :=
  match a with
  | some s => if s = "" then b else s
  | none => b

/-- `extractOllamaErrorMessage` (src/routes/api.js): prefer a string body,
then a string `error` field, then `error.message`, then `message`, else the
fallback. -/
def extractOllamaErrorMessage (data : BackendErrorData) (fallback : String) : String :=
  match data with
  | .absent => fallback
  | .str s => s
  | .errStr e => e
  | .errObj (some m) _ _ => m
  | .errObj none _ _ => fallback
  | .msg m => m
  | .other => fallback

/-- Whether `data?.error?.includes('model')` holds: only a string-valued
`error` field supports `includes` (an object-valued `error` would throw in
the source and is not modelled). -/
def dataErrorIncludesModel (data : BackendErrorData) : Bool :=
  match data with
  | .errStr e => jsIncludes e "model"
  | _ => false

/-- `createOpenAIError` (src/routes/api.js lines 858-989): map a caught
backend error to an OpenAI-dialect error envelope. -/
def createOpenAIError (error : BackendError) (model : String) : ErrorEnvelope :=
  match error.response with
  | some (status, data) =>
    let errorMessage := extractOllamaErrorMessage data (jsOrString error.message "Bad request")
    match status with
    | 400 =>
      if jsIncludes errorMessage "model" || jsIncludes errorMessage "not found" then
        ⟨404, "invalid_request_error", "model_not_found", s!"Model '{model}' does not exist"⟩
      else
        ⟨400, "invalid_request_error", "invalid_request", errorMessage⟩
    | 401 => ⟨401, "authentication_error", "unauthorized", "Unauthorized access to Ollama server"⟩
    | 404 =>
      if dataErrorIncludesModel data ||
          (error.message.map (jsIncludes · "model")).getD false then
        ⟨404, "invalid_request_error", "model_not_found", s!"Model '{model}' does not exist"⟩
      else
        ⟨404, "invalid_request_error", "not_found", "Ollama endpoint not found"⟩
    | 429 => ⟨429, "rate_limit_error", "rate_limit_exceeded", "Rate limit exceeded"⟩
    | 500 => ⟨500, "server_error", "server_error", "Ollama server error"⟩
    | 502 => ⟨500, "server_error", "server_error", "Ollama server error"⟩
    | 503 => ⟨500, "server_error", "server_error", "Ollama server error"⟩
    | 504 => ⟨500, "server_error", "server_error", "Ollama server error"⟩
    | s => ⟨s, "server_error", "unknown_error", errorMessage⟩
  | none =>
    if error.code = some "ECONNREFUSED" ∨ error.code = some "ENOTFOUND" then
      ⟨503, "service_unavailable_error", "service_unavailable", "Cannot connect to Ollama server"⟩
    else if error.code = some "ETIMEDOUT" ∨
        (error.message.map (jsIncludes · "timeout")).getD false then
      ⟨504, "timeout_error", "timeout", "Request timeout - Ollama server took too long to respond"⟩
    else
      ⟨500, "server_error", "internal_error", jsOrString error.message "Internal server error"⟩

/-- `createAnthropicError` (Anthropic route lines 1303-1429): map a caught
backend error to an Anthropic-dialect error envelope.  In the default
branch `data?.error ||` puts an object-valued `error` field itself into the
message, which serializes as "[object Object]". -/
def createAnthropicError (error : BackendError) (model : String) : ErrorEnvelope :=
  match error.response with
  | some (status, data) =>
    match status with
    | 400 =>
      let m := match data with
        | .errObj msg _ _ => jsOrString msg "Invalid request"
        | _ => jsOrString none "Invalid request"
      let c := match data with
        | .errObj _ _ code => jsOrString code "invalid_request"
        | _ => "invalid_request"
      ⟨400, "invalid_request_error", c, m⟩
    | 401 => ⟨401, "authentication_error", "invalid_api_key", "Invalid credentials provided to Ollama"⟩
    | 403 => ⟨403, "permission_error", "forbidden", "Ollama denied the request"⟩
    | 404 =>
      if dataErrorIncludesModel data ||
          (error.message.map (jsIncludes · "model")).getD false then
        ⟨404, "invalid_request_error", "model_not_found", s!"Model '{model}' does not exist"⟩
      else
        ⟨404, "invalid_request_error", "not_found", "Ollama endpoint not found"⟩
    | 429 => ⟨429, "rate_limit_error", "rate_limit_exceeded", "Rate limit exceeded"⟩
    | 500 => ⟨500, "server_error", "server_error", "Ollama server error"⟩
    | 502 => ⟨500, "server_error", "server_error", "Ollama server error"⟩
    | 503 => ⟨500, "server_error", "server_error", "Ollama server error"⟩
    | 504 => ⟨500, "server_error", "server_error", "Ollama server error"⟩
    | s =>
      let m := match data with
        | .errStr e => e
        | .errObj _ _ _ => "[object Object]"
        | _ => jsOrString error.message "Unknown error"
      ⟨s, "server_error", "unknown_error", m⟩
  | none =>
    if error.code = some "ECONNREFUSED" ∨ error.code = some "ENOTFOUND" then
      ⟨503, "service_unavailable_error", "service_unavailable", "Cannot connect to Ollama server"⟩
    else if error.code = some "ETIMEDOUT" ∨
        (error.message.map (jsIncludes · "timeout")).getD false then
      ⟨504, "timeout_error", "timeout", "Request timeout - Ollama server took too long to respond"⟩
    else
      ⟨500, "server_error", "internal_error", jsOrString error.message "Internal server error"⟩

/-! ### Embeddings request conversion (`convertToOllamaEmbedRequest`) -/

/-- The shapes of the `input` field of an OpenAI embeddings request that the
converter distinguishes: a string, an array of strings, `null`, or absent
(`undefined`). -/
inductive EmbedInput where
  | str (s : String)
  | arr (xs : List String)
  | nullV
  | undefV
deriving DecidableEq, Repr

/-- The backend embeddings request produced by the converter. -/
structure OllamaEmbedRequest where
  model : String
  input : EmbedInput
  dimensions : Option Nat := none
deriving DecidableEq, Repr

/-- `convertToOllamaEmbedRequest` (src/routes/api.js lines 1019-1037):
normalize empty-string/undefined/null input to `[""]`, then reject `null`
or an empty array with "invalid input"; `dimensions` is attached only when
truthy (non-zero). -/
def convertToOllamaEmbedRequest (input0 : EmbedInput) (dimensions : Option Nat)
    (model : String) : Except String OllamaEmbedRequest :=
  let input := if input0 = .str "" ∨ input0 = .undefV ∨ input0 = .nullV then
      EmbedInput.arr [""] else input0
  if input = .nullV ∨ input = .arr [] then
    .error "invalid input"
  else
    .ok { model := model, input := input,
          dimensions := match dimensions with
            | some d => if d ≠ 0 then some d else none
            | none => none }

/-- `convertToOllamaEmbedRequest` with the `input === null` disjunct of the
error check removed; used to establish that that branch is unreachable. -/
def convertToOllamaEmbedRequestNoNullCheck (input0 : EmbedInput) (dimensions : Option Nat)
    (model : String) : Except String OllamaEmbedRequest :=
  let input := if input0 = .str "" ∨ input0 = .undefV ∨ input0 = .nullV then
      EmbedInput.arr [""] else input0
  if input = .arr [] then
    .error "invalid input"
  else
    .ok { model := model, input := input,
          dimensions := match dimensions with
            | some d => if d ≠ 0 then some d else none
            | none => none }

/-! ### Backend NDJSON stream events -/

/-- A tool call as delivered by the backend (`message.tool_calls[i]`);
`arguments` is kept in serialized form — the handlers re-serialize
object-valued arguments with `JSON.stringify`, which does not affect any
verified property. -/
structure OllamaToolCall where
  id : Option String := none
  fnName : Option String := none
  arguments : Option String := none
deriving DecidableEq, Repr

/-- The `message` object of a backend NDJSON event. -/
structure OllamaMessage where
  content : Option String := none
  thinking : Option String := none
  signature : Option String := none
  tool_calls : Option (List OllamaToolCall) := none
deriving DecidableEq, Repr

/-- One parsed backend NDJSON event. -/
structure OllamaStreamEvent where
  message : Option OllamaMessage := none
  prompt_eval_count : Option Nat := none
  eval_count : Option Nat := none
  done : Bool := false
deriving DecidableEq, Repr

/-! ### OpenAI-dialect streaming handler (`/chat/completions`, stream branch) -/

/-- The `tokenUsage` record accumulated by the streaming handler and
emitted in the final chunk. -/
structure TokenUsage where
  prompt_tokens : Nat := 0
  completion_tokens : Nat := 0
  total_tokens : Nat := 0
deriving DecidableEq, Repr

/-- The closure state of the OpenAI-dialect streaming handler
(src/routes/api.js lines 175-183). -/
structure OpenAIStreamState where
  sentRole : Bool := false
  responseContent : String := ""
  thinkingContent : String := ""
  sawToolCalls : Bool := false
  usage : TokenUsage := {}
deriving DecidableEq, Repr

/-- A tool-call delta entry emitted in an OpenAI chunk (the synthesized
`call_<timestamp>_<i>` id is nondeterministic and omitted). -/
structure OpenAIToolCallDelta where
  index : Nat
  fnName : Option String
  arguments : String
deriving DecidableEq, Repr

/-- An SSE chunk written by the OpenAI streaming handler: the initial
role-only chunk, a content/reasoning/tool delta chunk, the closing chunk
carrying `finish_reason` and usage, or the literal `[DONE]` terminator. -/
inductive OpenAIChunk where
  | roleChunk
  | deltaChunk (content : Option String) (reasoningContent : Option String)
      (toolCalls : Option (List OpenAIToolCallDelta))
  | finalChunk (finishReason : String) (usage : TokenUsage)
  | doneMarker
deriving DecidableEq, Repr

/-- The text-accumulation part of the OpenAI streaming callback
(`if (data.message) { if (content) responseContent += ...; if (thinking)
thinkingContent += ... }`). -/
def oaiAccumulateText (s0 : OpenAIStreamState) (ev : OllamaStreamEvent) :
    OpenAIStreamState :=
  match ev.message with
  | some m =>
    let sa := if m.content.getD "" ≠ "" then
        { s0 with responseContent := s0.responseContent ++ m.content.getD "" } else s0
    if m.thinking.getD "" ≠ "" then
      { sa with thinkingContent := sa.thinkingContent ++ m.thinking.getD "" } else sa
  | none => s0

/-- The role-preface part: the first emitted chunk carries only
`delta.role = "assistant"`. -/
def oaiRolePart (s : OpenAIStreamState) : OpenAIStreamState × List OpenAIChunk :=
  if !s.sentRole then ({ s with sentRole := true }, [OpenAIChunk.roleChunk])
  else (s, [])

/-- The `delta.content` value of the chunk for this event: present iff the
event's message has a `content` key with a non-empty value. -/
def oaiContentDelta (ev : OllamaStreamEvent) : Option String :=
  match ev.message with
  | some m => match m.content with
    | some c => if c ≠ "" then some c else none
    | none => none
  | none => none

/-- The `delta.reasoning_content` value: present iff the event carries
truthy `thinking` and reasoning is not suppressed. -/
def oaiReasoningDelta (includeReasoning : Bool) (ev : OllamaStreamEvent) : Option String :=
  match ev.message with
  | some m => match m.thinking with
    | some t => if t ≠ "" ∧ includeReasoning then some t else none
    | none => none
  | none => none

/-- The `delta.tool_calls` value: the event's non-empty tool-call list,
re-indexed, with arguments serialized. -/
def oaiToolCallDeltas (ev : OllamaStreamEvent) : Option (List OpenAIToolCallDelta) :=
  match ev.message with
  | some m => match m.tool_calls with
    | some l => if l ≠ [] then
        some (l.enum.map (fun p => ⟨p.1, p.2.fnName, p.2.arguments.getD "{}"⟩))
      else none
    | none => none
  | none => none

/-- The token-counter update: counts are cumulative; the total is
recomputed as the sum only when both counts are nonzero (`if
(tokenUsage.prompt_tokens && tokenUsage.completion_tokens)`). -/
def oaiUsagePart (s : OpenAIStreamState) (ev : OllamaStreamEvent) : OpenAIStreamState :=
  let p := ev.prompt_eval_count.getD s.usage.prompt_tokens
  let c := ev.eval_count.getD s.usage.completion_tokens
  let t := if p ≠ 0 ∧ c ≠ 0 then p + c else s.usage.total_tokens
  { s with usage := ⟨p, c, t⟩ }

/-- One invocation of the OpenAI streaming handler's NDJSON callback
(src/routes/api.js lines 185-276) on a parsed event: accumulate text, emit
the role preface once, emit a delta chunk when it has any content, record
tool-call sightings, update token counters, and on `done` emit the closing
chunk and the `[DONE]` terminator.  `includeReasoning` stands for
`req.reasoningPreferences?.shouldIncludeReasoning !== false`. -/
def openAIStreamStep (includeReasoning : Bool) (s0 : OpenAIStreamState)
    (ev : OllamaStreamEvent) : OpenAIStreamState × List OpenAIChunk :=
  let s1 := oaiAccumulateText s0 ev
  let r2 := oaiRolePart s1
  let cd := oaiContentDelta ev
  let rd := oaiReasoningDelta includeReasoning ev
  let td := oaiToolCallDeltas ev
  let s3 := { r2.1 with sawToolCalls := r2.1.sawToolCalls || td.isSome }
  let deltaOut := if cd.isSome || rd.isSome || td.isSome then
      [OpenAIChunk.deltaChunk cd rd td] else []
  let s4 := oaiUsagePart s3 ev
  if ev.done then
    (s4, r2.2 ++ deltaOut ++
      [OpenAIChunk.finalChunk (if s4.sawToolCalls then "tool_calls" else "stop") s4.usage,
       OpenAIChunk.doneMarker])
  else
    (s4, r2.2 ++ deltaOut)

/-- Run the OpenAI streaming handler over a sequence of parsed backend
events, collecting all written chunks in order. -/
def openAIStreamRun (includeReasoning : Bool) (evs : List OllamaStreamEvent) :
    OpenAIStreamState × List OpenAIChunk :=
  evs.foldl (fun acc ev =>
    let r := openAIStreamStep includeReasoning acc.1 ev
    (r.1, acc.2 ++ r.2)) ({}, [])

/-! ### Non-stream OpenAI response conversion (`convertToOpenAIResponse`) -/

/-- A tool call in a converted OpenAI response (synthesized id omitted). -/
structure OpenAIToolCallOut where
  fnName : Option String
  arguments : String
deriving DecidableEq, Repr

/-- The assistant message of a converted OpenAI response; `content` is
`none` when the source sets it to JSON `null` for tool-call turns. -/
structure OpenAIMessage where
  role : String
  content : Option String
  reasoning_content : Option String := none
  tool_calls : Option (List OpenAIToolCallOut) := none
deriving DecidableEq, Repr

/-- The parts of a converted OpenAI chat response that the verified
properties concern (id/created timestamps omitted). -/
structure OpenAIResponse where
  message : OpenAIMessage
  finish_reason : String
  usage : TokenUsage
deriving DecidableEq, Repr

/-- `convertToOpenAIResponse` (src/routes/api.js lines 814-855): build the
assistant message (reasoning included only when non-blank and not
suppressed; tool calls mapped; `content` nulled on empty tool-call turns),
derive `finish_reason`, and recompute `total_tokens` as the sum of the two
counts. -/
def convertToOpenAIResponse (ollamaFinal : OllamaStreamEvent)
    (content thinking : String) (includeReasoning : Bool) : OpenAIResponse :=
  let reasoning : Option String :=
    if thinking ≠ "" ∧ thinking.trim ≠ "" ∧ includeReasoning then some thinking else none
  let toolCalls : Option (List OpenAIToolCallOut) := match ollamaFinal.message with
    | some m => match m.tool_calls with
      | some l => if l ≠ [] then
          some (l.map fun tc => ⟨tc.fnName, tc.arguments.getD "{}"⟩) else none
      | none => none
    | none => none
  let messageContent : Option String :=
    if toolCalls.isSome ∧ content = "" then none else some content
  let promptTokens := ollamaFinal.prompt_eval_count.getD 0
  let completionTokens := ollamaFinal.eval_count.getD 0
  { message := { role := "assistant", content := messageContent,
                 reasoning_content := reasoning, tool_calls := toolCalls },
    finish_reason := if toolCalls.isSome then "tool_calls" else "stop",
    usage := { prompt_tokens := promptTokens, completion_tokens := completionTokens,
               total_tokens := promptTokens + completionTokens } }

/-! ### Anthropic-dialect streaming handler (`handleStreamingAnthropicResponse`)

The handler is a per-request state machine over the backend NDJSON events:
a thinking block and a text block are opened lazily (each at most once, at
the next free content-block index), closed at finalization, and tool-use
blocks are emitted as immediately-closed start/stop pairs at finalization.
The SSE events it writes are modelled by `AnthEvent`; payload text is
carried in the deltas, block payloads (`content_block.type` etc.) are
reflected in the `BlockKind` argument of `blockStart`. -/

/-- The kind of an Anthropic content block. -/
inductive BlockKind where
  | thinking
  | text
  | toolUse
deriving DecidableEq, Repr

/-- The delta payload of a `content_block_delta` event. -/
inductive AnthDelta where
  | textDelta (s : String)
  | thinkingDelta (s : String)
  | signatureDelta (s : String)
deriving DecidableEq, Repr

/-- An SSE event written by the Anthropic streaming handler. -/
inductive AnthEvent where
  | messageStart
  | blockStart (index : Nat) (kind : BlockKind)
  | blockDelta (index : Nat) (delta : AnthDelta)
  | blockStop (index : Nat)
  | messageDelta (stopReason : String) (inputTokens outputTokens : Nat)
  | messageStop
  | doneEvent
deriving DecidableEq, Repr

/-- The closure state of `handleStreamingAnthropicResponse`
(part_000 lines 631-642). -/
structure AnthState where
  responseContent : String := ""
  thinkingContent : String := ""
  toolCalls : List OllamaToolCall := []
  promptTokens : Nat := 0
  completionTokens : Nat := 0
  nextContentIndex : Nat := 0
  thinkingBlockIndex : Option Nat := none
  textBlockIndex : Option Nat := none
  thinkingBlockOpen : Bool := false
  thinkingBlockStarted : Bool := false
  textBlockOpen : Bool := false
  textBlockStarted : Bool := false
deriving DecidableEq, Repr

/-- `ensureThinkingBlock`: open the thinking block at the next free index
if it has not been started yet. -/
def ensureThinkingBlock (s : AnthState) : AnthState × List AnthEvent :=
  if !s.thinkingBlockStarted then
    ({ s with thinkingBlockIndex := some s.nextContentIndex,
              nextContentIndex := s.nextContentIndex + 1,
              thinkingBlockOpen := true, thinkingBlockStarted := true },
     [.blockStart s.nextContentIndex .thinking])
  else (s, [])

/-- `ensureTextBlock`: open the text block at the next free index if it has
not been started yet. -/
def ensureTextBlock (s : AnthState) : AnthState × List AnthEvent :=
  if !s.textBlockStarted then
    ({ s with textBlockIndex := some s.nextContentIndex,
              nextContentIndex := s.nextContentIndex + 1,
              textBlockOpen := true, textBlockStarted := true },
     [.blockStart s.nextContentIndex .text])
  else (s, [])

/-- `closeThinkingBlock`: emit `content_block_stop` for the thinking block
if it is open. -/
def closeThinkingBlock (s : AnthState) : AnthState × List AnthEvent :=
  if s.thinkingBlockOpen then
    ({ s with thinkingBlockOpen := false }, [.blockStop (s.thinkingBlockIndex.getD 0)])
  else (s, [])

/-- `closeTextBlock`: emit `content_block_stop` for the text block if it is
open. -/
def closeTextBlock (s : AnthState) : AnthState × List AnthEvent :=
  if s.textBlockOpen then
    ({ s with textBlockOpen := false }, [.blockStop (s.textBlockIndex.getD 0)])
  else (s, [])

/-- The `toolCalls.forEach` loop at finalization: each accumulated tool
call gets a fresh content-block index with an immediately-closed
`content_block_start`/`content_block_stop` pair. -/
def emitToolUseBlocks (s : AnthState) : AnthState × List AnthEvent :=
  s.toolCalls.foldl (fun acc _tc =>
    let idx := acc.1.nextContentIndex
    ({ acc.1 with nextContentIndex := idx + 1 },
     acc.2 ++ [.blockStart idx .toolUse, .blockStop idx])) (s, [])

/-- The content-handling part of the handler's NDJSON callback (processed
first, part_000 lines 697-710): on truthy `message.content`, accumulate
it, ensure the text block, and emit a `text_delta`. -/
def anthContentPart (s0 : AnthState) (ev : OllamaStreamEvent) :
    AnthState × List AnthEvent :=
  match ev.message with
  | some m =>
    match m.content with
    | some c =>
      if c ≠ "" then
        let s := { s0 with responseContent := s0.responseContent ++ c }
        let r := ensureTextBlock s
        (r.1, r.2 ++ [.blockDelta (r.1.textBlockIndex.getD 0) (.textDelta c)])
      else (s0, [])
    | none => (s0, [])
  | none => (s0, [])

/-- The thinking-handling part (processed second, lines 712-725): on truthy
`message.thinking`, accumulate it, ensure the thinking block, and emit a
`thinking_delta`. -/
def anthThinkingPart (s0 : AnthState) (ev : OllamaStreamEvent) :
    AnthState × List AnthEvent :=
  match ev.message with
  | some m =>
    match m.thinking with
    | some t =>
      if t ≠ "" then
        let s := { s0 with thinkingContent := s0.thinkingContent ++ t }
        let r := ensureThinkingBlock s
        (r.1, r.2 ++ [.blockDelta (r.1.thinkingBlockIndex.getD 0) (.thinkingDelta t)])
      else (s0, [])
    | none => (s0, [])
  | none => (s0, [])

/-- The signature-handling part (lines 727-737): on truthy
`message.signature`, ensure the thinking block and emit a
`signature_delta`. -/
def anthSignaturePart (s0 : AnthState) (ev : OllamaStreamEvent) :
    AnthState × List AnthEvent :=
  match ev.message with
  | some m =>
    match m.signature with
    | some sg =>
      if sg ≠ "" then
        let r := ensureThinkingBlock s0
        (r.1, r.2 ++ [.blockDelta (r.1.thinkingBlockIndex.getD 0) (.signatureDelta sg)])
      else (s0, [])
    | none => (s0, [])
  | none => (s0, [])

/-- The tool-call part (lines 739-741): a non-empty `tool_calls` array
replaces the tracked list. -/
def anthToolCallPart (s : AnthState) (ev : OllamaStreamEvent) : AnthState :=
  match ev.message with
  | some m =>
    match m.tool_calls with
    | some l => if l ≠ [] then { s with toolCalls := l } else s
    | none => s
  | none => s

/-- The token-counter part (lines 743-748): cumulative counts. -/
def anthTokenPart (s : AnthState) (ev : OllamaStreamEvent) : AnthState :=
  { s with promptTokens := ev.prompt_eval_count.getD s.promptTokens,
           completionTokens := ev.eval_count.getD s.completionTokens }

/-- The finalization part (lines 750-798): on `done`, close the thinking
and text blocks if open, emit one start/stop pair per accumulated tool
call, then `message_delta` (with stop reason and usage), `message_stop`
and the synthetic `done` event. -/
def anthDonePart (s : AnthState) (ev : OllamaStreamEvent) :
    AnthState × List AnthEvent :=
  if ev.done then
    let r1 := closeThinkingBlock s
    let r2 := closeTextBlock r1.1
    let r3 := if r2.1.toolCalls ≠ [] then emitToolUseBlocks r2.1 else (r2.1, [])
    let stopReason := if r3.1.toolCalls ≠ [] then "tool_use" else "end_turn"
    (r3.1, r1.2 ++ r2.2 ++ r3.2 ++
      [.messageDelta stopReason r3.1.promptTokens r3.1.completionTokens,
       .messageStop, .doneEvent])
  else (s, [])

/-- One invocation of the Anthropic handler's NDJSON callback (part_000
lines 696-799), as the sequential composition of its parts. -/
def anthStep (s0 : AnthState) (ev : OllamaStreamEvent) : AnthState × List AnthEvent :=
  let r1 := anthContentPart s0 ev
  let r2 := anthThinkingPart r1.1 ev
  let r3 := anthSignaturePart r2.1 ev
  let s4 := anthToolCallPart r3.1 ev
  let s5 := anthTokenPart s4 ev
  let r6 := anthDonePart s5 ev
  (r6.1, r1.2 ++ r2.2 ++ r3.2 ++ r6.2)

/-- Run the Anthropic handler over a sequence of parsed backend events,
starting from the `message_start` emission. -/
def anthRun (evs : List OllamaStreamEvent) : AnthState × List AnthEvent :=
  evs.foldl (fun acc ev =>
    let r := anthStep acc.1 ev
    (r.1, acc.2 ++ r.2)) ({}, [.messageStart])

/-- The indices of the `content_block_start` events of an emitted stream,
in emission order. -/
def startIndexList (out : List AnthEvent) : List Nat :=
  out.filterMap (fun e => match e with | .blockStart i _ => some i | _ => none)

/-- The `(index, kind)` pairs of the `content_block_start` events of an
emitted stream, in emission order. -/
def startKindList (out : List AnthEvent) : List (Nat × BlockKind) :=
  out.filterMap (fun e => match e with | .blockStart i k => some (i, k) | _ => none)

/-- The indices of the `content_block_stop` events of an emitted stream,
in emission order. -/
def stopIndexList (out : List AnthEvent) : List Nat :=
  out.filterMap (fun e => match e with | .blockStop i => some i | _ => none)

/-- How many `content_block_start` events with index `i` were emitted. -/
def startCount (i : Nat) (out : List AnthEvent) : Nat := (startIndexList out).count i

/-- How many `content_block_stop` events with index `i` were emitted. -/
def stopCount (i : Nat) (out : List AnthEvent) : Nat := (stopIndexList out).count i

/-! ### Invariants of the Anthropic block state machine -/

lemma startIndexList_append (a b : List AnthEvent) :
    startIndexList (a ++ b) = startIndexList a ++ startIndexList b := by
  simp [startIndexList]

lemma stopIndexList_append (a b : List AnthEvent) :
    stopIndexList (a ++ b) = stopIndexList a ++ stopIndexList b := by
  simp [stopIndexList]

lemma startKindList_append (a b : List AnthEvent) :
    startKindList (a ++ b) = startKindList a ++ startKindList b := by
  simp [startKindList]

lemma startCount_append (i : Nat) (a b : List AnthEvent) :
    startCount i (a ++ b) = startCount i a + startCount i b := by
  simp [startCount, startIndexList_append]

lemma stopCount_append (i : Nat) (a b : List AnthEvent) :
    stopCount i (a ++ b) = stopCount i a + stopCount i b := by
  simp [stopCount, stopIndexList_append]

lemma count_range (i n : Nat) : (List.range n).count i = if i < n then 1 else 0 := by
  induction n with
  | zero => simp
  | succ n ih =>
    rw [List.range_succ, List.count_append, ih]
    by_cases h : i = n
    · subst h
      simp [List.count_singleton]
    · have h0 : ([n] : List Nat).count i = 0 := by
        rw [List.count_eq_zero]
        simp [h]
      rw [h0]
      by_cases h2 : i < n
      · simp [h2, Nat.lt_succ_of_lt h2]
      · have h3 : ¬ i < n + 1 := by omega
        simp [h2, h3]

lemma startCount_eq_range {out : List AnthEvent} {k : Nat}
    (h : startIndexList out = List.range k) (i : Nat) :
    startCount i out = if i < k then 1 else 0 := by
  rw [startCount, h, count_range]

lemma stopCount_take_le (i : Nat) (l : List AnthEvent) (m : Nat) :
    stopCount i (l.take m) ≤ stopCount i l := by
  have h1 : List.Sublist (l.take m) l := List.take_sublist m l
  have h2 : List.Sublist (stopIndexList (l.take m)) (stopIndexList l) :=
    List.Sublist.filterMap _ h1
  exact List.Sublist.count_le h2 i

lemma wf_append_le {out new : List AnthEvent}
    (hwf : ∀ n i, stopCount i (out.take n) ≤ startCount i (out.take n))
    (hnew : ∀ m i, stopCount i out + stopCount i (new.take m) ≤
                   startCount i out + startCount i (new.take m)) :
    ∀ n i, stopCount i ((out ++ new).take n) ≤ startCount i ((out ++ new).take n) := by
  intro n i
  rw [List.take_append_eq_append_take, stopCount_append, startCount_append]
  by_cases hlen : n ≤ out.length
  · have hz : n - out.length = 0 := by omega
    rw [hz]
    simpa [stopCount, startCount, stopIndexList, startIndexList] using hwf n i
  · have hall : out.take n = out := List.take_of_length_le (by omega)
    rw [hall]
    exact hnew (n - out.length) i

lemma wf_full {out : List AnthEvent}
    (hwf : ∀ n i, stopCount i (out.take n) ≤ startCount i (out.take n)) (i : Nat) :
    stopCount i out ≤ startCount i out := by
  simpa [List.take_of_length_le (le_refl out.length)] using hwf out.length i

lemma wf_append_no_stops {out new : List AnthEvent}
    (hwf : ∀ n i, stopCount i (out.take n) ≤ startCount i (out.take n))
    (hns : ∀ i, stopCount i new = 0) :
    ∀ n i, stopCount i ((out ++ new).take n) ≤ startCount i ((out ++ new).take n) := by
  refine wf_append_le hwf ?_
  intro m i
  have h1 : stopCount i (new.take m) = 0 :=
    Nat.le_zero.mp (hns i ▸ stopCount_take_le i new m)
  rw [h1]
  exact le_add_right (by simpa using wf_full hwf i)

/-- The number of `content_block_stop` events that must have been emitted
for block index `i` given the current machine state: one for every started
block that is no longer open (tool-use blocks are always immediately
closed; only the thinking/text blocks can be momentarily open). -/
def expectedStops (s : AnthState) (i : Nat) : Nat :=
  if i < s.nextContentIndex then
    if s.thinkingBlockIndex = some i then (if s.thinkingBlockOpen then 0 else 1)
    else if s.textBlockIndex = some i then (if s.textBlockOpen then 0 else 1)
    else 1
  else 0

/-- The coupling invariant between the Anthropic handler's closure state
and the SSE events emitted so far. -/
structure AnthInv (s : AnthState) (out : List AnthEvent) : Prop where
  starts : startIndexList out = List.range s.nextContentIndex
  thinkStarted : s.thinkingBlockStarted = s.thinkingBlockIndex.isSome
  textStarted : s.textBlockStarted = s.textBlockIndex.isSome
  thinkIdxLt : ∀ i, s.thinkingBlockIndex = some i → i < s.nextContentIndex
  textIdxLt : ∀ i, s.textBlockIndex = some i → i < s.nextContentIndex
  idxNe : ∀ i, s.thinkingBlockIndex = some i → s.textBlockIndex ≠ some i
  thinkOpenStarted : s.thinkingBlockOpen = true → s.thinkingBlockStarted = true
  textOpenStarted : s.textBlockOpen = true → s.textBlockStarted = true
  stops : ∀ i, stopCount i out = expectedStops s i
  wf : ∀ n i, stopCount i (out.take n) ≤ startCount i (out.take n)

lemma AnthInv.copyBlockFields {s : AnthState} {out : List AnthEvent}
    (h : AnthInv s out) (s' : AnthState)
    (h1 : s'.nextContentIndex = s.nextContentIndex)
    (h2 : s'.thinkingBlockIndex = s.thinkingBlockIndex)
    (h3 : s'.textBlockIndex = s.textBlockIndex)
    (h4 : s'.thinkingBlockOpen = s.thinkingBlockOpen)
    (h5 : s'.textBlockOpen = s.textBlockOpen)
    (h6 : s'.thinkingBlockStarted = s.thinkingBlockStarted)
    (h7 : s'.textBlockStarted = s.textBlockStarted) : AnthInv s' out := by
  have hexp : ∀ i, expectedStops s' i = expectedStops s i := by
    intro i
    simp [expectedStops, h1, h2, h3, h4, h5]
  exact {
    starts := by rw [h1]; exact h.starts
    thinkStarted := by rw [h6, h2]; exact h.thinkStarted
    textStarted := by rw [h7, h3]; exact h.textStarted
    thinkIdxLt := by rw [h2, h1]; exact h.thinkIdxLt
    textIdxLt := by rw [h3, h1]; exact h.textIdxLt
    idxNe := by rw [h2, h3]; exact h.idxNe
    thinkOpenStarted := by rw [h4, h6]; exact h.thinkOpenStarted
    textOpenStarted := by rw [h5, h7]; exact h.textOpenStarted
    stops := fun i => (hexp i) ▸ h.stops i
    wf := h.wf }

lemma AnthInv.appendNoBlockEvents {s : AnthState} {out : List AnthEvent}
    (h : AnthInv s out) (new : List AnthEvent)
    (hstart : startIndexList new = [])
    (hstop : stopIndexList new = []) : AnthInv s (out ++ new) := by
  have hsc : ∀ i, stopCount i new = 0 := by
    intro i; simp [stopCount, hstop]
  exact {
    starts := by rw [startIndexList_append, hstart, List.append_nil]; exact h.starts
    thinkStarted := h.thinkStarted
    textStarted := h.textStarted
    thinkIdxLt := h.thinkIdxLt
    textIdxLt := h.textIdxLt
    idxNe := h.idxNe
    thinkOpenStarted := h.thinkOpenStarted
    textOpenStarted := h.textOpenStarted
    stops := fun i => by rw [stopCount_append, hsc, Nat.add_zero]; exact h.stops i
    wf := wf_append_no_stops h.wf hsc }

lemma AnthInv.ensureTextBlockInv {s : AnthState} {out : List AnthEvent}
    (h : AnthInv s out) :
    AnthInv (ensureTextBlock s).1 (out ++ (ensureTextBlock s).2) := by
  unfold ensureTextBlock
  by_cases hs : s.textBlockStarted
  · simpa [hs] using h
  · have hnone : s.textBlockIndex = none := by
      cases hx : s.textBlockIndex with
      | none => rfl
      | some j => rw [h.textStarted, hx] at hs; simp at hs
    simp only [hs, Bool.not_false, if_pos]
    set n := s.nextContentIndex with hn
    refine {
      starts := ?_
      thinkStarted := by simpa using h.thinkStarted
      textStarted := by simp
      thinkIdxLt := ?_
      textIdxLt := ?_
      idxNe := ?_
      thinkOpenStarted := ?_
      textOpenStarted := by simp
      stops := ?_
      wf := ?_ }
    · rw [startIndexList_append, h.starts]
      simp [startIndexList, List.range_succ]
    · intro i hi
      simp only at hi
      exact Nat.lt_succ_of_lt (h.thinkIdxLt i hi)
    · intro i hi
      simp only [Option.some.injEq] at hi
      simp [← hi]
    · intro i hi htext
      simp only [Option.some.injEq] at htext
      have := h.thinkIdxLt i hi
      omega
    · intro hopen
      simp only at hopen
      rw [h.thinkOpenStarted hopen]
    · intro i
      have hnostop : stopCount i [AnthEvent.blockStart n .text] = 0 := by
        simp [stopCount, stopIndexList]
      rw [stopCount_append, hnostop, Nat.add_zero, h.stops]
      by_cases hlt : i < n
      · have hne : ¬ (some n = some i) := by simp; omega
        simp only [expectedStops]
        rw [if_pos hlt, if_pos (Nat.lt_succ_of_lt hlt)]
        simp only [hnone]
        by_cases hth : s.thinkingBlockIndex = some i
        · simp [hth]
        · simp [hth, hne]
      · by_cases heq : i = n
        · have hth : ¬ (s.thinkingBlockIndex = some i) := by
            intro hx; exact absurd (h.thinkIdxLt i hx) (by omega)
          have hlt2 : i < n + 1 := by omega
          rw [heq] at hth
          simp [expectedStops, hlt, hlt2, hth, heq]
        · have : ¬ i < n + 1 := by omega
          simp [expectedStops, hlt, this]
    · exact wf_append_no_stops h.wf (by intro i; simp [stopCount, stopIndexList])

lemma AnthInv.ensureThinkingBlockInv {s : AnthState} {out : List AnthEvent}
    (h : AnthInv s out) :
    AnthInv (ensureThinkingBlock s).1 (out ++ (ensureThinkingBlock s).2) := by
  unfold ensureThinkingBlock
  by_cases hs : s.thinkingBlockStarted
  · simpa [hs] using h
  · have hnone : s.thinkingBlockIndex = none := by
      cases hx : s.thinkingBlockIndex with
      | none => rfl
      | some j => rw [h.thinkStarted, hx] at hs; simp at hs
    simp only [hs, Bool.not_false, if_pos]
    set n := s.nextContentIndex with hn
    refine {
      starts := ?_
      thinkStarted := by simp
      textStarted := by simpa using h.textStarted
      thinkIdxLt := ?_
      textIdxLt := ?_
      idxNe := ?_
      thinkOpenStarted := by simp
      textOpenStarted := ?_
      stops := ?_
      wf := ?_ }
    · rw [startIndexList_append, h.starts]
      simp [startIndexList, List.range_succ]
    · intro i hi
      simp only [Option.some.injEq] at hi
      simp [← hi]
    · intro i hi
      simp only at hi
      exact Nat.lt_succ_of_lt (h.textIdxLt i hi)
    · intro i hi
      simp only [Option.some.injEq] at hi
      subst hi
      intro hx
      simp only at hx
      exact absurd (h.textIdxLt _ hx) (by omega)
    · intro hopen
      simp only at hopen
      rw [h.textOpenStarted hopen]
    · intro i
      have hnostop : stopCount i [AnthEvent.blockStart n .thinking] = 0 := by
        simp [stopCount, stopIndexList]
      rw [stopCount_append, hnostop, Nat.add_zero, h.stops]
      by_cases hlt : i < n
      · have hne : ¬ (some n = some i) := by simp; omega
        simp only [expectedStops]
        rw [if_pos hlt, if_pos (Nat.lt_succ_of_lt hlt)]
        simp only [hnone]
        simp [hne]
      · by_cases heq : i = n
        · have htx : ¬ (s.textBlockIndex = some i) := by
            intro hx; exact absurd (h.textIdxLt i hx) (by omega)
          have hlt2 : i < n + 1 := by omega
          simp [expectedStops, hlt, hlt2, htx, heq]
        · have : ¬ i < n + 1 := by omega
          simp [expectedStops, hlt, this]
    · exact wf_append_no_stops h.wf (by intro i; simp [stopCount, stopIndexList])

lemma stopCount_blockStop_self (j : Nat) : stopCount j [AnthEvent.blockStop j] = 1 := by
  have he : stopIndexList [AnthEvent.blockStop j] = [j] := rfl
  rw [stopCount, he]
  simp

lemma stopCount_blockStop_ne {i j : Nat} (h : i ≠ j) :
    stopCount i [AnthEvent.blockStop j] = 0 := by
  have he : stopIndexList [AnthEvent.blockStop j] = [j] := rfl
  rw [stopCount, he, List.count_eq_zero]
  simp
  omega

lemma stopCount_blockStop_le_one (i j : Nat) : stopCount i [AnthEvent.blockStop j] ≤ 1 := by
  by_cases h : i = j
  · rw [h, stopCount_blockStop_self]
  · rw [stopCount_blockStop_ne h]
    omega

lemma AnthInv.closeThinkingBlockInv {s : AnthState} {out : List AnthEvent}
    (h : AnthInv s out) :
    AnthInv (closeThinkingBlock s).1 (out ++ (closeThinkingBlock s).2) := by
  unfold closeThinkingBlock
  by_cases hopen : s.thinkingBlockOpen
  · have hstarted : s.thinkingBlockStarted = true := h.thinkOpenStarted hopen
    obtain ⟨j, hj⟩ : ∃ j, s.thinkingBlockIndex = some j := by
      cases hx : s.thinkingBlockIndex with
      | none => rw [h.thinkStarted, hx] at hstarted; simp at hstarted
      | some j => exact ⟨j, rfl⟩
    have hgd : s.thinkingBlockIndex.getD 0 = j := by rw [hj]; rfl
    have hjlt : j < s.nextContentIndex := h.thinkIdxLt j hj
    simp only [hopen, if_pos, hgd]
    refine {
      starts := ?_
      thinkStarted := by simpa using h.thinkStarted
      textStarted := by simpa using h.textStarted
      thinkIdxLt := by simpa using h.thinkIdxLt
      textIdxLt := by simpa using h.textIdxLt
      idxNe := by simpa using h.idxNe
      thinkOpenStarted := by simp
      textOpenStarted := by simpa using h.textOpenStarted
      stops := ?_
      wf := ?_ }
    · rw [startIndexList_append, h.starts]
      simp [startIndexList]
    · intro i
      rw [stopCount_append, h.stops]
      by_cases heq : i = j
      · have hone : stopCount i [AnthEvent.blockStop j] = 1 := by
          simp [stopCount, stopIndexList, heq]
        rw [hone]
        simp only [expectedStops, heq, hj, hjlt, if_pos, hopen]
        simp
      · have hzero : stopCount i [AnthEvent.blockStop j] = 0 := stopCount_blockStop_ne heq
        rw [hzero, Nat.add_zero]
        have hne : ¬ (s.thinkingBlockIndex = some i) := by
          rw [hj]; simp; omega
        simp only [expectedStops, hne]
        simp
    · refine wf_append_le h.wf ?_
      intro m i
      by_cases heq : i = j
      · have hstop0 : stopCount i out = 0 := by
          rw [h.stops, heq]
          simp [expectedStops, hj, hjlt, hopen]
        have hstart1 : startCount i out = 1 := by
          rw [startCount_eq_range h.starts, heq, if_pos hjlt]
        have hle : stopCount i ([AnthEvent.blockStop j].take m) ≤ 1 := by
          calc stopCount i ([AnthEvent.blockStop j].take m)
              ≤ stopCount i [AnthEvent.blockStop j] := stopCount_take_le _ _ _
            _ ≤ 1 := stopCount_blockStop_le_one i j
        rw [hstop0, hstart1]
        omega
      · have hz : stopCount i ([AnthEvent.blockStop j].take m) = 0 :=
          Nat.le_zero.mp ((stopCount_blockStop_ne heq) ▸ stopCount_take_le i _ m)
        rw [hz, Nat.add_zero]
        exact le_add_right (wf_full h.wf i)
  · simpa [hopen] using h

lemma AnthInv.closeTextBlockInv {s : AnthState} {out : List AnthEvent}
    (h : AnthInv s out) :
    AnthInv (closeTextBlock s).1 (out ++ (closeTextBlock s).2) := by
  unfold closeTextBlock
  by_cases hopen : s.textBlockOpen
  · have hstarted : s.textBlockStarted = true := h.textOpenStarted hopen
    obtain ⟨j, hj⟩ : ∃ j, s.textBlockIndex = some j := by
      cases hx : s.textBlockIndex with
      | none => rw [h.textStarted, hx] at hstarted; simp at hstarted
      | some j => exact ⟨j, rfl⟩
    have hgd : s.textBlockIndex.getD 0 = j := by rw [hj]; rfl
    have hjlt : j < s.nextContentIndex := h.textIdxLt j hj
    have hthne : ¬ (s.thinkingBlockIndex = some j) := by
      intro hx
      exact (h.idxNe j hx) hj
    simp only [hopen, if_pos, hgd]
    refine {
      starts := ?_
      thinkStarted := by simpa using h.thinkStarted
      textStarted := by simpa using h.textStarted
      thinkIdxLt := by simpa using h.thinkIdxLt
      textIdxLt := by simpa using h.textIdxLt
      idxNe := by simpa using h.idxNe
      thinkOpenStarted := by simpa using h.thinkOpenStarted
      textOpenStarted := by simp
      stops := ?_
      wf := ?_ }
    · rw [startIndexList_append, h.starts]
      simp [startIndexList]
    · intro i
      rw [stopCount_append, h.stops]
      by_cases heq : i = j
      · have hone : stopCount i [AnthEvent.blockStop j] = 1 := by
          simp [stopCount, stopIndexList, heq]
        rw [hone]
        rw [heq]
        simp only [expectedStops, hj, hjlt, if_pos, hopen, hthne]
        simp
      · have hzero : stopCount i [AnthEvent.blockStop j] = 0 := stopCount_blockStop_ne heq
        rw [hzero, Nat.add_zero]
        have hne : ¬ (s.textBlockIndex = some i) := by
          rw [hj]; simp; omega
        simp only [expectedStops, hne]
        simp
    · refine wf_append_le h.wf ?_
      intro m i
      by_cases heq : i = j
      · have hstop0 : stopCount i out = 0 := by
          rw [h.stops, heq]
          simp [expectedStops, hj, hjlt, hopen, hthne]
        have hstart1 : startCount i out = 1 := by
          rw [startCount_eq_range h.starts, heq, if_pos hjlt]
        have hle : stopCount i ([AnthEvent.blockStop j].take m) ≤ 1 := by
          calc stopCount i ([AnthEvent.blockStop j].take m)
              ≤ stopCount i [AnthEvent.blockStop j] := stopCount_take_le _ _ _
            _ ≤ 1 := stopCount_blockStop_le_one i j
        rw [hstop0, hstart1]
        omega
      · have hz : stopCount i ([AnthEvent.blockStop j].take m) = 0 :=
          Nat.le_zero.mp ((stopCount_blockStop_ne heq) ▸ stopCount_take_le i _ m)
        rw [hz, Nat.add_zero]
        exact le_add_right (wf_full h.wf i)
  · simpa [hopen] using h

lemma AnthInv.toolPairInv {s : AnthState} {out : List AnthEvent} (h : AnthInv s out) :
    AnthInv { s with nextContentIndex := s.nextContentIndex + 1 }
      (out ++ [.blockStart s.nextContentIndex .toolUse,
               .blockStop s.nextContentIndex]) := by
  set n := s.nextContentIndex with hn
  have hthn : ¬ (s.thinkingBlockIndex = some n) := by
    intro hx; exact absurd (h.thinkIdxLt n hx) (by omega)
  have htxn : ¬ (s.textBlockIndex = some n) := by
    intro hx; exact absurd (h.textIdxLt n hx) (by omega)
  have hbatch : ∀ i, stopCount i [AnthEvent.blockStart n .toolUse, AnthEvent.blockStop n] =
      (if i = n then 1 else 0) := by
    intro i
    have he : stopIndexList [AnthEvent.blockStart n .toolUse, AnthEvent.blockStop n] = [n] := rfl
    rw [stopCount, he]
    by_cases hi : i = n
    · simp [hi]
    · rw [if_neg hi, List.count_eq_zero]
      simp
      omega
  refine {
    starts := ?_
    thinkStarted := by simpa using h.thinkStarted
    textStarted := by simpa using h.textStarted
    thinkIdxLt := ?_
    textIdxLt := ?_
    idxNe := by simpa using h.idxNe
    thinkOpenStarted := by simpa using h.thinkOpenStarted
    textOpenStarted := by simpa using h.textOpenStarted
    stops := ?_
    wf := ?_ }
  · rw [startIndexList_append, h.starts]
    simp [startIndexList, List.range_succ]
  · intro i hi
    simp only at hi
    exact Nat.lt_succ_of_lt (h.thinkIdxLt i hi)
  · intro i hi
    simp only at hi
    exact Nat.lt_succ_of_lt (h.textIdxLt i hi)
  · intro i
    rw [stopCount_append, h.stops, hbatch]
    by_cases heq : i = n
    · rw [heq]
      have h1 : ¬ n < n := by omega
      have h2 : n < n + 1 := by omega
      simp [expectedStops, hthn, htxn, h1, h2]
    · simp only [if_neg heq, Nat.add_zero, expectedStops]
      by_cases hlt : i < n
      · rw [if_pos hlt, if_pos (by omega : i < n + 1)]
      · rw [if_neg hlt, if_neg (by omega : ¬ i < n + 1)]
  · refine wf_append_le h.wf ?_
    intro m i
    by_cases heq : i = n
    · have hstop0 : stopCount i out = 0 := by
        rw [h.stops, heq]
        simp [expectedStops]
      have hstart0 : startCount i out = 0 := by
        rw [startCount_eq_range h.starts, heq]
        simp
      rw [hstop0, hstart0, heq]
      match m with
      | 0 => simp [stopCount, startCount, stopIndexList, startIndexList]
      | 1 =>
        have h1 : stopCount n ([AnthEvent.blockStart n .toolUse,
            AnthEvent.blockStop n].take 1) = 0 := by
          have hx : stopIndexList ([AnthEvent.blockStart n .toolUse,
              AnthEvent.blockStop n].take 1) = [] := rfl
          rw [stopCount, hx, List.count_nil]
        have h2 : startCount n ([AnthEvent.blockStart n .toolUse,
            AnthEvent.blockStop n].take 1) = 1 := by
          have hx : startIndexList ([AnthEvent.blockStart n .toolUse,
              AnthEvent.blockStop n].take 1) = [n] := rfl
          rw [startCount, hx]
          simp
        omega
      | (k + 2) =>
        have htk : ([AnthEvent.blockStart n .toolUse, AnthEvent.blockStop n].take (k + 2)) =
            [AnthEvent.blockStart n .toolUse, AnthEvent.blockStop n] := by
          apply List.take_of_length_le
          simp
        rw [htk, hbatch, startCount]
        have : startIndexList [AnthEvent.blockStart n .toolUse, AnthEvent.blockStop n] = [n] := rfl
        rw [this]
        simp
    · have hz : stopCount i ([AnthEvent.blockStart n .toolUse,
          AnthEvent.blockStop n].take m) = 0 := by
        have h0 := hbatch i
        rw [if_neg heq] at h0
        exact Nat.le_zero.mp (h0 ▸ stopCount_take_le i _ m)
      rw [hz, Nat.add_zero]
      exact le_add_right (wf_full h.wf i)

lemma emitToolUseBlocks_foldFn_eq :
    (fun (acc : AnthState × List AnthEvent) (_tc : OllamaToolCall) =>
      let idx := acc.1.nextContentIndex
      ({ acc.1 with nextContentIndex := idx + 1 },
       acc.2 ++ [.blockStart idx .toolUse, .blockStop idx])) =
    (fun acc _tc =>
      ({ acc.1 with nextContentIndex := acc.1.nextContentIndex + 1 },
       acc.2 ++ [.blockStart acc.1.nextContentIndex .toolUse,
                 .blockStop acc.1.nextContentIndex])) := rfl

lemma emitToolUse_fold_state (l : List OllamaToolCall) :
    ∀ (p : AnthState × List AnthEvent),
      (l.foldl (fun acc _tc =>
        let idx := acc.1.nextContentIndex
        ({ acc.1 with nextContentIndex := idx + 1 },
         acc.2 ++ [.blockStart idx .toolUse, .blockStop idx])) p).1 =
      { p.1 with nextContentIndex := p.1.nextContentIndex + l.length } := by
  induction l with
  | nil => intro p; simp
  | cons tc l ih =>
    intro p
    rw [List.foldl_cons, ih]
    simp
    omega

lemma AnthInv.emitToolUse_fold_inv (l : List OllamaToolCall) :
    ∀ (out : List AnthEvent) (p : AnthState × List AnthEvent),
      AnthInv p.1 (out ++ p.2) →
      AnthInv (l.foldl (fun acc _tc =>
          let idx := acc.1.nextContentIndex
          ({ acc.1 with nextContentIndex := idx + 1 },
           acc.2 ++ [.blockStart idx .toolUse, .blockStop idx])) p).1
        (out ++ (l.foldl (fun acc _tc =>
          let idx := acc.1.nextContentIndex
          ({ acc.1 with nextContentIndex := idx + 1 },
           acc.2 ++ [.blockStart idx .toolUse, .blockStop idx])) p).2) := by
  induction l with
  | nil => intro out p hp; simpa using hp
  | cons tc l ih =>
    intro out p hp
    rw [List.foldl_cons]
    refine ih out _ ?_
    have := hp.toolPairInv
    simpa [List.append_assoc] using this

lemma AnthInv.emitToolUseBlocksInv {s : AnthState} {out : List AnthEvent}
    (h : AnthInv s out) :
    AnthInv (emitToolUseBlocks s).1 (out ++ (emitToolUseBlocks s).2) := by
  unfold emitToolUseBlocks
  exact AnthInv.emitToolUse_fold_inv s.toolCalls out (s, []) (by simpa using h)

lemma emitToolUseBlocks_state (s : AnthState) :
    (emitToolUseBlocks s).1 =
      { s with nextContentIndex := s.nextContentIndex + s.toolCalls.length } := by
  unfold emitToolUseBlocks
  exact emitToolUse_fold_state s.toolCalls (s, [])

lemma startIndexList_delta (i : Nat) (d : AnthDelta) :
    startIndexList [AnthEvent.blockDelta i d] = [] := rfl

lemma stopIndexList_delta (i : Nat) (d : AnthDelta) :
    stopIndexList [AnthEvent.blockDelta i d] = [] := rfl

lemma AnthInv.anthContentPartInv {s : AnthState} {out : List AnthEvent}
    (h : AnthInv s out) (ev : OllamaStreamEvent) :
    AnthInv (anthContentPart s ev).1 (out ++ (anthContentPart s ev).2) := by
  unfold anthContentPart
  cases hm : ev.message with
  | none => simp only [hm]; simpa using h
  | some m =>
    simp only [hm]
    cases hc : m.content with
    | none => simp only [hc]; simpa using h
    | some c =>
      simp only [hc]
      by_cases hce : c ≠ ""
      · simp only [if_pos hce]
        have h1 : AnthInv { s with responseContent := s.responseContent ++ c } out :=
          h.copyBlockFields _ rfl rfl rfl rfl rfl rfl rfl
        have h2 := h1.ensureTextBlockInv
        have h3 := h2.appendNoBlockEvents
          [.blockDelta ((ensureTextBlock
            { s with responseContent := s.responseContent ++ c }).1.textBlockIndex.getD 0)
            (.textDelta c)] rfl rfl
        simpa [List.append_assoc] using h3
      · simp only [if_neg hce]
        simpa using h

lemma AnthInv.anthThinkingPartInv {s : AnthState} {out : List AnthEvent}
    (h : AnthInv s out) (ev : OllamaStreamEvent) :
    AnthInv (anthThinkingPart s ev).1 (out ++ (anthThinkingPart s ev).2) := by
  unfold anthThinkingPart
  cases hm : ev.message with
  | none => simp only [hm]; simpa using h
  | some m =>
    simp only [hm]
    cases hc : m.thinking with
    | none => simp only [hc]; simpa using h
    | some t =>
      simp only [hc]
      by_cases hte : t ≠ ""
      · simp only [if_pos hte]
        have h1 : AnthInv { s with thinkingContent := s.thinkingContent ++ t } out :=
          h.copyBlockFields _ rfl rfl rfl rfl rfl rfl rfl
        have h2 := h1.ensureThinkingBlockInv
        have h3 := h2.appendNoBlockEvents
          [.blockDelta ((ensureThinkingBlock
            { s with thinkingContent := s.thinkingContent ++ t }).1.thinkingBlockIndex.getD 0)
            (.thinkingDelta t)] rfl rfl
        simpa [List.append_assoc] using h3
      · simp only [if_neg hte]
        simpa using h

lemma AnthInv.anthSignaturePartInv {s : AnthState} {out : List AnthEvent}
    (h : AnthInv s out) (ev : OllamaStreamEvent) :
    AnthInv (anthSignaturePart s ev).1 (out ++ (anthSignaturePart s ev).2) := by
  unfold anthSignaturePart
  cases hm : ev.message with
  | none => simp only [hm]; simpa using h
  | some m =>
    simp only [hm]
    cases hc : m.signature with
    | none => simp only [hc]; simpa using h
    | some sg =>
      simp only [hc]
      by_cases hse : sg ≠ ""
      · simp only [if_pos hse]
        have h2 := h.ensureThinkingBlockInv
        have h3 := h2.appendNoBlockEvents
          [.blockDelta ((ensureThinkingBlock s).1.thinkingBlockIndex.getD 0)
            (.signatureDelta sg)] rfl rfl
        simpa [List.append_assoc] using h3
      · simp only [if_neg hse]
        simpa using h

lemma AnthInv.anthToolCallPartInv {s : AnthState} {out : List AnthEvent}
    (h : AnthInv s out) (ev : OllamaStreamEvent) :
    AnthInv (anthToolCallPart s ev) out := by
  unfold anthToolCallPart
  cases hm : ev.message with
  | none => simp only [hm]; exact h
  | some m =>
    simp only [hm]
    cases ht : m.tool_calls with
    | none => simp only [ht]; exact h
    | some l =>
      simp only [ht]
      by_cases hl : l ≠ []
      · simp only [if_pos hl]
        exact h.copyBlockFields _ rfl rfl rfl rfl rfl rfl rfl
      · simp only [if_neg hl]
        exact h

lemma AnthInv.anthTokenPartInv {s : AnthState} {out : List AnthEvent}
    (h : AnthInv s out) (ev : OllamaStreamEvent) :
    AnthInv (anthTokenPart s ev) out := by
  unfold anthTokenPart
  exact h.copyBlockFields _ rfl rfl rfl rfl rfl rfl rfl

lemma AnthInv.anthDonePartInv {s : AnthState} {out : List AnthEvent}
    (h : AnthInv s out) (ev : OllamaStreamEvent) :
    AnthInv (anthDonePart s ev).1 (out ++ (anthDonePart s ev).2) := by
  unfold anthDonePart
  by_cases hd : ev.done
  · simp only [hd, if_pos]
    have h1 := h.closeThinkingBlockInv
    have h2 := h1.closeTextBlockInv
    by_cases htc : (closeTextBlock (closeThinkingBlock s).1).1.toolCalls ≠ []
    · simp only [if_pos htc]
      have h3 := h2.emitToolUseBlocksInv
      have h4 := h3.appendNoBlockEvents
        [.messageDelta (if (emitToolUseBlocks
            (closeTextBlock (closeThinkingBlock s).1).1).1.toolCalls ≠ [] then
            "tool_use" else "end_turn")
          (emitToolUseBlocks (closeTextBlock (closeThinkingBlock s).1).1).1.promptTokens
          (emitToolUseBlocks (closeTextBlock (closeThinkingBlock s).1).1).1.completionTokens,
         .messageStop, .doneEvent] rfl rfl
      simpa [List.append_assoc] using h4
    · simp only [if_neg htc]
      have h4 := h2.appendNoBlockEvents
        [.messageDelta "end_turn"
          (closeTextBlock (closeThinkingBlock s).1).1.promptTokens
          (closeTextBlock (closeThinkingBlock s).1).1.completionTokens,
         .messageStop, .doneEvent] rfl rfl
      simpa [List.append_assoc, htc] using h4
  · simp only [hd]
    simpa using h

lemma AnthInv.anthStepInv {s : AnthState} {out : List AnthEvent}
    (h : AnthInv s out) (ev : OllamaStreamEvent) :
    AnthInv (anthStep s ev).1 (out ++ (anthStep s ev).2) := by
  unfold anthStep
  have h1 := h.anthContentPartInv ev
  have h2 := h1.anthThinkingPartInv ev
  have h3 := h2.anthSignaturePartInv ev
  have h4 := h3.anthToolCallPartInv ev
  have h5 := h4.anthTokenPartInv ev
  have h6 := h5.anthDonePartInv ev
  simpa [List.append_assoc] using h6

lemma anthInit_inv : AnthInv ({} : AnthState) [AnthEvent.messageStart] := by
  refine {
    starts := rfl
    thinkStarted := rfl
    textStarted := rfl
    thinkIdxLt := by intro i h; simp at h
    textIdxLt := by intro i h; simp at h
    idxNe := by intro i h; simp at h
    thinkOpenStarted := by intro h; simp at h
    textOpenStarted := by intro h; simp at h
    stops := by
      intro i
      have h0 : stopCount i [AnthEvent.messageStart] = 0 := rfl
      rw [h0]
      simp [expectedStops]
    wf := ?_ }
  intro n i
  match n with
  | 0 => simp [stopCount, startCount, stopIndexList, startIndexList]
  | (k + 1) =>
    have ht : ([AnthEvent.messageStart] : List AnthEvent).take (k + 1) =
        [AnthEvent.messageStart] := by
      apply List.take_of_length_le
      simp
    rw [ht]
    have h0 : stopCount i [AnthEvent.messageStart] = 0 := rfl
    rw [h0]
    exact Nat.zero_le _

lemma anthFold_inv (evs : List OllamaStreamEvent) :
    ∀ (acc : AnthState × List AnthEvent), AnthInv acc.1 acc.2 →
      AnthInv (evs.foldl (fun acc ev =>
          let r := anthStep acc.1 ev
          (r.1, acc.2 ++ r.2)) acc).1
        (evs.foldl (fun acc ev =>
          let r := anthStep acc.1 ev
          (r.1, acc.2 ++ r.2)) acc).2 := by
  induction evs with
  | nil => intro acc h; exact h
  | cons e evs ih =>
    intro acc h
    rw [List.foldl_cons]
    exact ih _ (h.anthStepInv e)

lemma anthRun_inv (evs : List OllamaStreamEvent) :
    AnthInv (anthRun evs).1 (anthRun evs).2 := by
  unfold anthRun
  exact anthFold_inv evs ({}, [AnthEvent.messageStart]) anthInit_inv

lemma closeThinkingBlock_open (s : AnthState) :
    (closeThinkingBlock s).1.thinkingBlockOpen = false := by
  unfold closeThinkingBlock
  cases hx : s.thinkingBlockOpen <;> simp [hx]

lemma closeThinkingBlock_textOpen (s : AnthState) :
    (closeThinkingBlock s).1.textBlockOpen = s.textBlockOpen := by
  unfold closeThinkingBlock
  cases hx : s.thinkingBlockOpen <;> simp [hx]

lemma closeTextBlock_open (s : AnthState) :
    (closeTextBlock s).1.textBlockOpen = false := by
  unfold closeTextBlock
  cases hx : s.textBlockOpen <;> simp [hx]

lemma closeTextBlock_thinkOpen (s : AnthState) :
    (closeTextBlock s).1.thinkingBlockOpen = s.thinkingBlockOpen := by
  unfold closeTextBlock
  cases hx : s.textBlockOpen <;> simp [hx]

lemma anthDonePart_flags (s : AnthState) (ev : OllamaStreamEvent) (h : ev.done = true) :
    (anthDonePart s ev).1.thinkingBlockOpen = false ∧
    (anthDonePart s ev).1.textBlockOpen = false := by
  unfold anthDonePart
  rw [h]
  simp only [if_true]
  by_cases htc : (closeTextBlock (closeThinkingBlock s).1).1.toolCalls ≠ []
  · simp only [if_pos htc]
    constructor
    · rw [emitToolUseBlocks_state]
      show (closeTextBlock (closeThinkingBlock s).1).1.thinkingBlockOpen = false
      rw [closeTextBlock_thinkOpen, closeThinkingBlock_open]
    · rw [emitToolUseBlocks_state]
      show (closeTextBlock (closeThinkingBlock s).1).1.textBlockOpen = false
      rw [closeTextBlock_open]
  · simp only [if_neg htc]
    constructor
    · rw [closeTextBlock_thinkOpen, closeThinkingBlock_open]
    · rw [closeTextBlock_open]

lemma anthStep_done_flags (s : AnthState) (ev : OllamaStreamEvent) (h : ev.done = true) :
    (anthStep s ev).1.thinkingBlockOpen = false ∧
    (anthStep s ev).1.textBlockOpen = false := by
  unfold anthStep
  exact anthDonePart_flags _ ev h

lemma expectedStops_closed {s : AnthState} (hth : s.thinkingBlockOpen = false)
    (htx : s.textBlockOpen = false) {i : Nat} (hi : i < s.nextContentIndex) :
    expectedStops s i = 1 := by
  unfold expectedStops
  rw [if_pos hi]
  split_ifs <;> simp_all

/-! ### Usage accounting lemmas for the OpenAI streaming handler -/

lemma oaiAccumulateText_usage (s : OpenAIStreamState) (ev : OllamaStreamEvent) :
    (oaiAccumulateText s ev).usage = s.usage := by
  unfold oaiAccumulateText
  cases hm : ev.message with
  | none => rfl
  | some m =>
    dsimp only
    split_ifs <;> rfl

lemma oaiRolePart_usage (s : OpenAIStreamState) :
    (oaiRolePart s).1.usage = s.usage := by
  unfold oaiRolePart
  split_ifs <;> rfl

lemma openAIStreamStep_state (inc : Bool) (s : OpenAIStreamState) (ev : OllamaStreamEvent) :
    (openAIStreamStep inc s ev).1 =
      oaiUsagePart { (oaiRolePart (oaiAccumulateText s ev)).1 with
        sawToolCalls := (oaiRolePart (oaiAccumulateText s ev)).1.sawToolCalls ||
          (oaiToolCallDeltas ev).isSome } ev := by
  unfold openAIStreamStep
  split_ifs <;> rfl

lemma openAIStreamStep_usage_prop (inc : Bool) (s : OpenAIStreamState)
    (ev : OllamaStreamEvent) :
    (openAIStreamStep inc s ev).1.usage.prompt_tokens ≠ 0 →
    (openAIStreamStep inc s ev).1.usage.completion_tokens ≠ 0 →
    (openAIStreamStep inc s ev).1.usage.total_tokens =
      (openAIStreamStep inc s ev).1.usage.prompt_tokens +
      (openAIStreamStep inc s ev).1.usage.completion_tokens := by
  rw [openAIStreamStep_state]
  unfold oaiUsagePart
  dsimp only
  intro hp hc
  rw [if_pos ⟨hp, hc⟩]

lemma finalChunk_not_mem_rolePart (s : OpenAIStreamState) (fin : String) (u : TokenUsage) :
    OpenAIChunk.finalChunk fin u ∉ (oaiRolePart s).2 := by
  unfold oaiRolePart
  split_ifs <;> simp

lemma openAIStreamStep_finalChunk_usage {inc : Bool} {s : OpenAIStreamState}
    {ev : OllamaStreamEvent} {fin : String} {u : TokenUsage}
    (h : OpenAIChunk.finalChunk fin u ∈ (openAIStreamStep inc s ev).2) :
    u = (openAIStreamStep inc s ev).1.usage := by
  unfold openAIStreamStep at h ⊢
  have hdelta : ∀ (cd rd : Option String) (td : Option (List OpenAIToolCallDelta)),
      OpenAIChunk.finalChunk fin u ∉
        (if cd.isSome || rd.isSome || td.isSome then
          [OpenAIChunk.deltaChunk cd rd td] else []) := by
    intro cd rd td
    split_ifs <;> simp
  by_cases hd : ev.done
  · simp only [hd, if_true] at h ⊢
    rcases List.mem_append.mp h with h1 | h2
    · rcases List.mem_append.mp h1 with ha | hb
      · exact absurd ha (finalChunk_not_mem_rolePart _ _ _)
      · exact absurd hb (hdelta _ _ _)
    · simp at h2
      exact h2.2
  · simp only [hd, if_false] at h
    rcases List.mem_append.mp h with ha | hb
    · exact absurd ha (finalChunk_not_mem_rolePart _ _ _)
    · exact absurd hb (hdelta _ _ _)

lemma openAIStreamRun_finalChunk_usage_prop (inc : Bool) (evs : List OllamaStreamEvent) :
    ∀ fin u, OpenAIChunk.finalChunk fin u ∈ (openAIStreamRun inc evs).2 →
      u.prompt_tokens ≠ 0 → u.completion_tokens ≠ 0 →
      u.total_tokens = u.prompt_tokens + u.completion_tokens := by
  unfold openAIStreamRun
  suffices hgen : ∀ (acc : OpenAIStreamState × List OpenAIChunk),
      (∀ fin u, OpenAIChunk.finalChunk fin u ∈ acc.2 →
        u.prompt_tokens ≠ 0 → u.completion_tokens ≠ 0 →
        u.total_tokens = u.prompt_tokens + u.completion_tokens) →
      ∀ fin u, OpenAIChunk.finalChunk fin u ∈ (evs.foldl (fun acc ev =>
          let r := openAIStreamStep inc acc.1 ev
          (r.1, acc.2 ++ r.2)) acc).2 →
        u.prompt_tokens ≠ 0 → u.completion_tokens ≠ 0 →
        u.total_tokens = u.prompt_tokens + u.completion_tokens by
    exact hgen ({}, []) (by simp)
  induction evs with
  | nil => intro acc hacc; exact hacc
  | cons e evs ih =>
    intro acc hacc
    rw [List.foldl_cons]
    refine ih _ ?_
    intro fin u hu
    rcases List.mem_append.mp hu with h1 | h2
    · exact hacc fin u h1
    · have := openAIStreamStep_finalChunk_usage h2
      rw [this]
      exact openAIStreamStep_usage_prop inc acc.1 e

/-! ### Same-event ordering lemmas for the Anthropic handler -/

lemma ensureTextBlock_of_not_started {s : AnthState} (h : s.textBlockStarted = false) :
    ensureTextBlock s =
      ({ s with textBlockIndex := some s.nextContentIndex,
                nextContentIndex := s.nextContentIndex + 1,
                textBlockOpen := true, textBlockStarted := true },
       [.blockStart s.nextContentIndex .text]) := by
  unfold ensureTextBlock
  rw [h]
  rfl

lemma ensureThinkingBlock_of_not_started {s : AnthState} (h : s.thinkingBlockStarted = false) :
    ensureThinkingBlock s =
      ({ s with thinkingBlockIndex := some s.nextContentIndex,
                nextContentIndex := s.nextContentIndex + 1,
                thinkingBlockOpen := true, thinkingBlockStarted := true },
       [.blockStart s.nextContentIndex .thinking]) := by
  unfold ensureThinkingBlock
  rw [h]
  rfl

lemma anthContentPart_eq {s : AnthState} {ev : OllamaStreamEvent} {m : OllamaMessage}
    {c : String} (hm : ev.message = some m) (hc : m.content = some c) (hcne : c ≠ "") :
    anthContentPart s ev =
      ((ensureTextBlock { s with responseContent := s.responseContent ++ c }).1,
       (ensureTextBlock { s with responseContent := s.responseContent ++ c }).2 ++
         [.blockDelta ((ensureTextBlock
             { s with responseContent := s.responseContent ++ c }).1.textBlockIndex.getD 0)
           (.textDelta c)]) := by
  unfold anthContentPart
  simp only [hm, hc, if_pos hcne]

lemma anthThinkingPart_eq {s : AnthState} {ev : OllamaStreamEvent} {m : OllamaMessage}
    {t : String} (hm : ev.message = some m) (ht : m.thinking = some t) (htne : t ≠ "") :
    anthThinkingPart s ev =
      ((ensureThinkingBlock { s with thinkingContent := s.thinkingContent ++ t }).1,
       (ensureThinkingBlock { s with thinkingContent := s.thinkingContent ++ t }).2 ++
         [.blockDelta ((ensureThinkingBlock
             { s with thinkingContent := s.thinkingContent ++ t }).1.thinkingBlockIndex.getD 0)
           (.thinkingDelta t)]) := by
  unfold anthThinkingPart
  simp only [hm, ht, if_pos htne]

lemma startKindList_anthSignaturePart {s : AnthState} {ev : OllamaStreamEvent}
    (h : s.thinkingBlockStarted = true) :
    startKindList (anthSignaturePart s ev).2 = [] := by
  unfold anthSignaturePart
  cases hm : ev.message with
  | none => rfl
  | some m =>
    dsimp only
    cases hsg : m.signature with
    | none => rfl
    | some sg =>
      dsimp only
      split_ifs with hse
      · have he : ensureThinkingBlock s = (s, []) := by
          unfold ensureThinkingBlock
          rw [h]
          rfl
        rw [he]
        rfl
      · rfl

/-! ### Claim theorems -/

lemma mapOpenAIEffort_canonical (v : JSVal) : isCanonicalThink (mapOpenAIEffort v) := by
  unfold mapOpenAIEffort isCanonicalThink
  cases v with
  | bool b => simp
  | num n => simp
  | str s =>
    by_cases h1 : s = "minimal"
    · simp [h1]
    · by_cases h2 : s = "low" ∨ s = "medium" ∨ s = "high"
      · simp [h1, h2]
      · simp [h1, h2]

lemma mapThinkingValue_canonical {v w : JSVal} (h : mapThinkingValue v = some w) :
    isCanonicalThink w := by
  cases v with
  | bool b =>
    have h' : some (JSVal.bool b) = some w := h
    cases h'
    cases b <;> simp [isCanonicalThink]
  | num n => cases h
  | str s =>
    have h' : (if s.toLower = "low" ∨ s.toLower = "medium" ∨ s.toLower = "high" then
        some (JSVal.str s.toLower)
      else if s.toLower = "minimal" then some (JSVal.bool false) else none) = some w := h
    by_cases h1 : s.toLower = "low" ∨ s.toLower = "medium" ∨ s.toLower = "high"
    · rw [if_pos h1] at h'
      cases h'
      rcases h1 with h1 | h1 | h1 <;> simp [h1, isCanonicalThink]
    · rw [if_neg h1] at h'
      by_cases h2 : s.toLower = "minimal"
      · rw [if_pos h2] at h'
        cases h'
        simp [isCanonicalThink]
      · rw [if_neg h2] at h'
        cases h'

lemma cvtThink_think {req : OpenAIThinkFields} {v : JSVal} (o : Option JSVal)
    (hv : req.think = some v) :
    convertToOllamaRequestThink o req = .ok (some v) := by
  unfold convertToOllamaRequestThink
  simp only [hv]

lemma cvtThink_effort {req : OpenAIThinkFields} {e : JSVal} (o : Option JSVal)
    (h1 : req.think = none) (h2 : req.reasoning_effort = some e) :
    convertToOllamaRequestThink o req = .ok (some (mapOpenAIEffort e)) := by
  unfold convertToOllamaRequestThink
  simp only [h1, h2]

lemma cvtThink_reasoning {req : OpenAIThinkFields} {r : OpenAIReasoning} (o : Option JSVal)
    (h1 : req.think = none) (h2 : req.reasoning_effort = none)
    (h3 : req.reasoning = some r) :
    convertToOllamaRequestThink o req =
      (if r.enabled.isSome ∧ r.effort.isSome then
        .error "Cannot specify both reasoning.enabled and reasoning.effort in the same request"
      else match r.effort with
        | some e => .ok (some (mapOpenAIEffort e))
        | none =>
          if r.enabled = some (.bool false) then .ok (some (.bool false))
          else .ok (some (.bool true))) := by
  unfold convertToOllamaRequestThink
  simp only [h1, h2, h3]

lemma cvtThink_base {req : OpenAIThinkFields} (o : Option JSVal)
    (h1 : req.think = none) (h2 : req.reasoning_effort = none)
    (h3 : req.reasoning = none) :
    convertToOllamaRequestThink o req = .ok o := by
  unfold convertToOllamaRequestThink
  simp only [h1, h2, h3]

/-- C1 (counterexample): the claim says a per-model override's `think`
value wins over a `think` field supplied in the request body; in the code
the override is written first and the request's raw `think` then
unconditionally overwrites it, so a request `think: true` beats an
override `think: false`. -/
theorem C1_counterexample :
    convertToOllamaRequestThink (some (.bool false)) { think := some (.bool true) } =
      .ok (some (.bool true)) ∧
    some (JSVal.bool true) ≠ some (JSVal.bool false) := by
  exact ⟨rfl, by simp⟩

/-- C1 (amended): the backend `think` value is resolved by the precedence
request.think > reasoning_effort > reasoning.{enabled|effort} >
override.think — each later source is consulted only if every earlier
source was absent, and in particular a `think` field supplied in the
request body wins over a per-model override's `think` value (the override
only acts as a default). -/
theorem C1_think_precedence (o : Option JSVal) (req : OpenAIThinkFields) :
    (∀ v, req.think = some v → convertToOllamaRequestThink o req = .ok (some v)) ∧
    (∀ e, req.think = none → req.reasoning_effort = some e →
        convertToOllamaRequestThink o req = .ok (some (mapOpenAIEffort e))) ∧
    (∀ r, req.think = none → req.reasoning_effort = none → req.reasoning = some r →
        convertToOllamaRequestThink o req = convertToOllamaRequestThink none req) ∧
    (req.think = none → req.reasoning_effort = none → req.reasoning = none →
        convertToOllamaRequestThink o req = .ok o) := by
  refine ⟨?_, ?_, ?_, ?_⟩
  · intro v hv
    unfold convertToOllamaRequestThink
    simp only [hv]
  · intro e h1 h2
    unfold convertToOllamaRequestThink
    simp only [h1, h2]
  · intro r h1 h2 h3
    unfold convertToOllamaRequestThink
    simp only [h1, h2, h3]
  · intro h1 h2 h3
    unfold convertToOllamaRequestThink
    simp only [h1, h2, h3]

/-- C1 (witness): the amended precedence applied at a concrete input where
both an override and a request `think` are present. -/
theorem C1_witness :
    ({ think := some (.bool true) } : OpenAIThinkFields).think = some (.bool true) ∧
    convertToOllamaRequestThink (some (.bool false)) { think := some (.bool true) } =
      .ok (some (.bool true)) :=
  ⟨rfl, (C1_think_precedence (some (.bool false)) { think := some (.bool true) }).1
    (.bool true) rfl⟩

/-- C9 (counterexample): the claim says normalization raises whenever
`reasoning.enabled` and `reasoning.effort` are both supplied; in the code
the conflict check lives in the `reasoning` branch, which is reached only
when raw `think` and `reasoning_effort` are absent — here a request
supplying `think` alongside both conflicting fields completes without
raising. -/
theorem C9_counterexample :
    convertToOllamaRequestThink none
      { think := some (.bool true),
        reasoning := some { enabled := some (.bool true), effort := some (.str "high") } } =
      .ok (some (.bool true)) := rfl

/-- C9 (amended): request normalization raises a validation error exactly
when `reasoning.enabled` and `reasoning.effort` are both supplied AND
neither a raw `think` nor a `reasoning_effort` field is present (those
earlier sources short-circuit the conflict check); every other combination
completes without raising. -/
theorem C9_conflict_validation (o : Option JSVal) (req : OpenAIThinkFields) :
    (∃ msg, convertToOllamaRequestThink o req = .error msg) ↔
      (req.think = none ∧ req.reasoning_effort = none ∧
        ∃ r, req.reasoning = some r ∧ r.enabled.isSome ∧ r.effort.isSome) := by
  cases h1 : req.think with
  | some v => rw [cvtThink_think o h1]; simp [h1]
  | none =>
    cases h2 : req.reasoning_effort with
    | some e => rw [cvtThink_effort o h1 h2]; simp [h2]
    | none =>
      cases h3 : req.reasoning with
      | none => rw [cvtThink_base o h1 h2 h3]; simp [h3]
      | some r =>
        rw [cvtThink_reasoning o h1 h2 h3]
        by_cases hc : r.enabled.isSome ∧ r.effort.isSome
        · rw [if_pos hc]
          simp [h1, h2, h3, hc]
        · rw [if_neg hc]
          cases he : r.effort with
          | some e =>
            simp [hc]
          | none =>
            split_ifs <;> simp [hc]

/-- C9 (witness): the conflict case raises at a concrete input. -/
theorem C9_witness :
    ∃ msg, convertToOllamaRequestThink none
      { reasoning := some { enabled := some (.bool true), effort := some (.str "high") } } =
      .error msg :=
  (C9_conflict_validation none
    { reasoning := some { enabled := some (.bool true), effort := some (.str "high") } }).mpr
    ⟨rfl, rfl, _, rfl, rfl, rfl⟩

/-- C6 (counterexample): the claim says unrecognized strings map to `true`;
the code passes a raw request `think` value through verbatim, so
`think: "banana"` reaches the backend unchanged and the resolved value is
not among the five canonical values. -/
theorem C6_counterexample :
    convertToOllamaRequestThink none { think := some (.str "banana") } =
      .ok (some (.str "banana")) ∧
    ¬ isCanonicalThink (.str "banana") := by
  exact ⟨rfl, by decide⟩

/-- C6 (amended): the effort-style directives (`reasoning_effort`,
`reasoning.effort`, `reasoning.enabled`, Anthropic `thinking`) always
collapse to a canonical value (`minimal` to `false`; strings unrecognized
by `reasoning_effort`/`reasoning.effort` to `true`; strings unrecognized
by the Anthropic mapper to "absent"), so when no raw `think` (request or
override) is supplied the backend `think` field is absent or canonical;
but a raw request `think` and an override `think` are passed through
verbatim, so the invariant holds only when their values are themselves
canonical or absent. -/
theorem C6_think_collapse (o : Option JSVal) (req : OpenAIThinkFields) :
    (o = none → req.think = none →
      ∀ v, convertToOllamaRequestThink o req = .ok (some v) → isCanonicalThink v) ∧
    (∀ v w, mapThinkingValue v = some w → isCanonicalThink w) ∧
    (∀ thinking extraBody v,
      convertAnthropicRequestThink none thinking extraBody = some v → isCanonicalThink v) ∧
    (∀ v, req.think = some v → convertToOllamaRequestThink o req = .ok (some v)) := by
  refine ⟨?_, fun v w h => mapThinkingValue_canonical h, ?_, ?_⟩
  · intro ho ht v hv
    subst ho
    cases h2 : req.reasoning_effort with
    | some e =>
      rw [cvtThink_effort none ht h2] at hv
      simp at hv
      rw [← hv]
      exact mapOpenAIEffort_canonical e
    | none =>
      cases h3 : req.reasoning with
      | none =>
        rw [cvtThink_base none ht h2 h3] at hv
        simp at hv
      | some r =>
        rw [cvtThink_reasoning none ht h2 h3] at hv
        by_cases hc : r.enabled.isSome ∧ r.effort.isSome
        · rw [if_pos hc] at hv; cases hv
        · rw [if_neg hc] at hv
          cases he : r.effort with
          | some e =>
            rw [he] at hv
            simp at hv
            rw [← hv]
            exact mapOpenAIEffort_canonical e
          | none =>
            rw [he] at hv
            split_ifs at hv <;> simp at hv <;> rw [← hv] <;> simp [isCanonicalThink]
  · intro thinking extraBody v hv
    unfold convertAnthropicRequestThink at hv
    cases hx : extractAnthropicThinkingPreference thinking extraBody with
    | none => rw [hx] at hv; cases hv
    | some w =>
      rw [hx] at hv
      cases hv
      unfold extractAnthropicThinkingPreference at hx
      cases thinking with
      | some tv => exact mapThinkingValue_canonical hx
      | none =>
        cases extraBody with
        | some ev => exact mapThinkingValue_canonical hx
        | none => cases hx
  · intro v hv
    unfold convertToOllamaRequestThink
    simp only [hv]

/-- C6 (witness): the collapse invariant applied at a concrete input with
no raw `think` and a `reasoning_effort` of "minimal". -/
theorem C6_witness :
    ((none : Option JSVal) = none) ∧
    convertToOllamaRequestThink none { reasoning_effort := some (.str "minimal") } =
      .ok (some (.bool false)) ∧
    isCanonicalThink (.bool false) :=
  ⟨rfl, rfl,
    (C6_think_collapse none { reasoning_effort := some (.str "minimal") }).1
      rfl rfl (.bool false) rfl⟩

/-- The UTF-8 bytes of the one-line payload `{"a":"é"}` followed by a
newline; `é` is the two-byte sequence `C3 A9`. -/
def c4Bytes : List Nat :=
  [0x7B, 0x22, 0x61, 0x22, 0x3A, 0x22, 0xC3, 0xA9, 0x22, 0x7D, 0x0A]

/-- The characters of the JSON line `{"a":"é"}`. -/
def c4LineChars : JStr := ['{', '"', 'a', '"', ':', '"', 'é', '"', '}']

/-- The characters of the line the parser actually sees when the payload is
split between the two bytes of `é`: each half-character decodes to U+FFFD. -/
def c4BrokenLine : JStr :=
  ['{', '"', 'a', '"', ':', '"', replacementChar, replacementChar, '"', '}']

/-- C4 (counterexample): the claim quantifies over arbitrary byte offsets,
but the handlers decode each chunk independently
(`buffer += chunk.toString('utf8')` on a raw stream with no
`setEncoding`), so splitting `{"a":"é"}\n` at byte offset 7 — between the
two bytes `C3 A9` of `é` — turns each half into a U+FFFD replacement
character: the split feed delivers the line with two replacement
characters, while the unsplit feed delivers `{"a":"é"}`, a different
object sequence — here witnessed with the parse function that returns the
raw line. -/
theorem C4_counterexample :
    utf8Decode c4Bytes = joinNdjsonLines [c4LineChars] ∧
    '\n' ∉ c4LineChars ∧ jsTrim c4LineChars ≠ [] ∧
    (ndjsonFeedAllBytes (fun t => some t) [c4Bytes.take 7, c4Bytes.drop 7]).2 =
      [c4BrokenLine] ∧
    (ndjsonFeedAllBytes (fun t => some t) [c4Bytes]).2 = [c4LineChars] ∧
    c4BrokenLine ≠ c4LineChars := by
  refine ⟨by decide, by decide, by decide, ?_, ?_, by decide⟩
  · have e1 : utf8Decode (c4Bytes.take 7) =
        ['{', '"', 'a', '"', ':', '"', replacementChar] := by decide
    have e2 : utf8Decode (c4Bytes.drop 7) = [replacementChar, '"', '}', '\n'] := by
      decide
    have p1 : ndjsonProcessBuffer (fun (t : JStr) => some t)
        (utf8Decode (c4Bytes.take 7)) =
        (['{', '"', 'a', '"', ':', '"', replacementChar], []) := by
      rw [e1]
      exact ndjsonProcessBuffer_of_none (by decide)
    have hs : splitAtNewline
        (['{', '"', 'a', '"', ':', '"', replacementChar] ++
          [replacementChar, '"', '}', '\n']) = some (c4BrokenLine, []) := by decide
    have p2 : ndjsonProcessBuffer (fun (t : JStr) => some t)
        (['{', '"', 'a', '"', ':', '"', replacementChar] ++
          utf8Decode (c4Bytes.drop 7)) = ([], [c4BrokenLine]) := by
      rw [e2]
      rw [ndjsonProcessBuffer_of_ok hs (by decide)
        (show (fun (t : JStr) => some t) (jsTrim c4BrokenLine) = some c4BrokenLine
          by decide)]
      rw [ndjsonProcessBuffer_of_none
        (show splitAtNewline ([] : JStr) = none from rfl)]
    simp only [ndjsonFeedAllBytes, ndjsonPumpBytes, List.foldl_cons, List.foldl_nil,
      List.nil_append]
    rw [p1]
    rw [p2]
    rfl
  · have e0 : utf8Decode c4Bytes = c4LineChars ++ ['\n'] := by decide
    have hs0 : splitAtNewline (c4LineChars ++ ['\n']) = some (c4LineChars, []) := by
      decide
    simp only [ndjsonFeedAllBytes, ndjsonPumpBytes, List.foldl_cons, List.foldl_nil,
      List.nil_append]
    rw [e0]
    rw [ndjsonProcessBuffer_of_ok hs0 (by decide)
      (show (fun (t : JStr) => some t) (jsTrim c4LineChars) = some c4LineChars
        by decide)]
    rw [ndjsonProcessBuffer_of_none
      (show splitAtNewline ([] : JStr) = none from rfl)]

/-- C4 (amended): the NDJSON parser is chunking-invariant for every byte
offset that does not fall inside a multi-byte character's UTF-8 encoding —
formally, whenever the independent per-chunk decodes of the two halves
concatenate to the decode of the unsplit payload (which holds exactly at
character boundaries of a well-formed payload): for a payload of complete,
valid JSON lines each terminated by a newline, feeding the two byte chunks
reports the same sequence of parsed objects as feeding the payload
unsplit.  A split inside a multi-byte character is decoded into U+FFFD
replacement characters and can change the parsed objects.  (The proof
factors through `ndjsonProcessBuffer_append`, which holds even without the
well-formedness hypotheses.) -/
theorem C4_ndjson_chunking_invariant {α : Type} (parse : JStr → Option α)
    (lines : List JStr) (bytes : List Nat) (k : Nat)
    (hdecode : utf8Decode bytes = joinNdjsonLines lines)
    (hlines : ∀ l ∈ lines, '\n' ∉ l ∧ jsTrim l ≠ [] ∧ (parse (jsTrim l)).isSome)
    (hboundary : utf8Decode (bytes.take k) ++ utf8Decode (bytes.drop k) =
      utf8Decode bytes) :
    (ndjsonFeedAllBytes parse [bytes.take k, bytes.drop k]).2 =
      (ndjsonFeedAllBytes parse [bytes]).2 := by
  have key := ndjsonProcessBuffer_append parse (utf8Decode (bytes.take k))
      (utf8Decode (bytes.drop k))
  rw [hboundary] at key
  simp only [ndjsonFeedAllBytes, ndjsonPumpBytes, List.foldl_cons, List.foldl_nil,
    List.nil_append]
  rw [key]

/-- C4 (witness): the amended invariance applied to the `{"a":"é"}`
payload split inside the JSON line at a character boundary (byte offset 6,
just before the `C3 A9` pair). -/
theorem C4_witness :
    (utf8Decode c4Bytes = joinNdjsonLines [c4LineChars]) ∧
    (∀ l ∈ [c4LineChars], '\n' ∉ l ∧ jsTrim l ≠ [] ∧
      ((fun (t : JStr) => some t) (jsTrim l)).isSome) ∧
    (utf8Decode (c4Bytes.take 6) ++ utf8Decode (c4Bytes.drop 6) = utf8Decode c4Bytes) ∧
    (ndjsonFeedAllBytes (fun t => some t) [c4Bytes.take 6, c4Bytes.drop 6]).2 =
      (ndjsonFeedAllBytes (fun t => some t) [c4Bytes]).2 :=
  ⟨by decide, by decide, by decide,
    C4_ndjson_chunking_invariant (fun t => some t) [c4LineChars] c4Bytes 6
      (by decide) (by decide) (by decide)⟩

/-- C7: model-access matching is tag-symmetric — for a base model name `m`
(no tag, i.e. no colon), an allow-list containing `m` grants access to
both `m` and `m:latest`, an allow-list containing `m:latest` grants access
to both as well, and a trimmed requested name matching none of the forms
(and no wildcard, which is part of `hasModelAccess`) is rejected with 403
`model_access_denied`. -/
theorem C7_model_access_tag_symmetric (m : JStr) (allowed : List JStr)
    (hm : ':' ∉ m) :
    (m ∈ allowed → hasModelAccess allowed m = true ∧
       hasModelAccess allowed (m ++ latestSuffix) = true) ∧
    ((m ++ latestSuffix) ∈ allowed → hasModelAccess allowed m = true ∧
       hasModelAccess allowed (m ++ latestSuffix) = true) ∧
    (∀ raw, jsTrim raw ≠ [] → hasModelAccess allowed (jsTrim raw) = false →
       checkModelAccess allowed (some raw) =
         .error ⟨403, "permission_error", "model_access_denied",
                 "Access denied for model"⟩) := by
  have hsuf : latestSuffix.isSuffixOf (m ++ latestSuffix) = true :=
    List.isSuffixOf_iff_suffix.mpr (List.suffix_append m latestSuffix)
  have htake : (m ++ latestSuffix).take ((m ++ latestSuffix).length - 7) = m := by
    have hlen : (m ++ latestSuffix).length - 7 = m.length := by
      simp [latestSuffix]
    rw [hlen]
    exact List.take_left m latestSuffix
  have hcont : m.contains ':' = false := by
    simp [List.contains]
    intro hx
    exact absurd hx hm
  refine ⟨?_, ?_, ?_⟩
  · intro hmem
    constructor
    · simp [hasModelAccess, hmem]
    · unfold hasModelAccess
      rw [hsuf, htake]
      simp [hmem]
  · intro hmem
    constructor
    · simp [hasModelAccess, hmem, hm]
    · simp [hasModelAccess, hmem]
  · intro raw hne hfail
    unfold checkModelAccess
    dsimp only
    rw [if_neg hne, if_neg (by simp [hfail])]

/-- C7 (witness): tag symmetry at a concrete base name and allow-list. -/
theorem C7_witness :
    (':' ∉ (['x'] : JStr)) ∧
    (hasModelAccess [(['x'] : JStr)] ['x'] = true ∧
     hasModelAccess [(['x'] : JStr)] (['x'] ++ latestSuffix) = true) :=
  ⟨by decide, (C7_model_access_tag_symmetric ['x'] [['x']] (by decide)).1 (by decide)⟩

/-- C8 (counterexample): the claim says a backend 403 maps to type
`permission_error` and code `forbidden` in both dialects; the OpenAI-side
mapper has no `case 403`, so a backend 403 falls through to the default
branch with type `server_error` and code `unknown_error`. -/
theorem C8_counterexample :
    createOpenAIError { response := some (403, .errStr "denied") } "m" =
      ⟨403, "server_error", "unknown_error", "denied"⟩ ∧
    ("server_error" : String) ≠ "permission_error" := ⟨rfl, by decide⟩

/-- C8 (amended): for a backend 403, the Anthropic-dialect mapper returns
403 with `permission_error`/`forbidden`, while the OpenAI-dialect mapper
falls into its default branch and returns 403 with
`server_error`/`unknown_error` (carrying the extracted backend message). -/
theorem C8_backend_403 (e : BackendError) (d : BackendErrorData) (model : String)
    (h : e.response = some (403, d)) :
    createAnthropicError e model =
      ⟨403, "permission_error", "forbidden", "Ollama denied the request"⟩ ∧
    createOpenAIError e model =
      ⟨403, "server_error", "unknown_error",
        extractOllamaErrorMessage d (jsOrString e.message "Bad request")⟩ := by
  constructor
  · unfold createAnthropicError
    rw [h]
  · unfold createOpenAIError
    rw [h]

/-- C8 (witness): the 403 mapping at a concrete backend error. -/
theorem C8_witness :
    ({ response := some (403, .errStr "x") } : BackendError).response =
      some (403, BackendErrorData.errStr "x") ∧
    createAnthropicError { response := some (403, .errStr "x") } "m" =
      ⟨403, "permission_error", "forbidden", "Ollama denied the request"⟩ :=
  ⟨rfl, (C8_backend_403 { response := some (403, .errStr "x") } (.errStr "x") "m" rfl).1⟩

/-- C10: in embeddings conversion, an empty-string/undefined/null `input`
is normalized to `[""]`, the conversion raises "invalid input" iff `input`
is an empty array, and consequently the `input === null` disjunct of the
error check is unreachable: the conversion is extensionally equal to the
same code with that disjunct removed. -/
theorem C10_embed_input (input : EmbedInput) (dims : Option Nat) (model : String) :
    (convertToOllamaEmbedRequest input dims model =
      convertToOllamaEmbedRequestNoNullCheck input dims model) ∧
    ((input = .str "" ∨ input = .undefV ∨ input = .nullV) →
      convertToOllamaEmbedRequest input dims model =
        .ok { model := model, input := .arr [""],
              dimensions := match dims with
                | some d => if d ≠ 0 then some d else none
                | none => none }) ∧
    ((∃ msg, convertToOllamaEmbedRequest input dims model = .error msg) ↔
      input = .arr []) := by
  unfold convertToOllamaEmbedRequest convertToOllamaEmbedRequestNoNullCheck
  cases input with
  | str s =>
    by_cases hs : s = ""
    · subst hs; simp
    · simp [hs]
  | arr xs =>
    cases xs with
    | nil => simp
    | cons x xs => simp
  | nullV => simp
  | undefV => simp

/-- C10 (witness): null input normalized to `[""]`. -/
theorem C10_witness :
    (EmbedInput.nullV = EmbedInput.str "" ∨ EmbedInput.nullV = EmbedInput.undefV ∨
      EmbedInput.nullV = EmbedInput.nullV) ∧
    convertToOllamaEmbedRequest .nullV none "m" =
      .ok { model := "m", input := .arr [""], dimensions := none } :=
  ⟨by simp, by
    have h := (C10_embed_input .nullV none "m").2.1 (by simp)
    simpa using h⟩

/-- C3 (counterexample): the claim says `total_tokens` equals the sum even
when one count is zero or absent; in the streamed OpenAI handler the total
is recomputed only when both counts are truthy, so a stream reporting only
`prompt_eval_count: 3` emits a final usage of `{3, 0, 0}` whose total is
not `3 + 0`. -/
theorem C3_counterexample :
    OpenAIChunk.finalChunk "stop" ⟨3, 0, 0⟩ ∈
      (openAIStreamRun true [{ prompt_eval_count := some 3, done := true }]).2 ∧
    (⟨3, 0, 0⟩ : TokenUsage).total_tokens ≠
      (⟨3, 0, 0⟩ : TokenUsage).prompt_tokens +
      (⟨3, 0, 0⟩ : TokenUsage).completion_tokens := by
  constructor
  · have hlist : (openAIStreamRun true [{ prompt_eval_count := some 3, done := true }]).2 =
        [.roleChunk, .finalChunk "stop" ⟨3, 0, 0⟩, .doneMarker] := rfl
    rw [hlist]
    simp
  · decide

/-- C3 (amended): in every non-streamed OpenAI response the usage's
`total_tokens` is recomputed as `prompt_tokens + completion_tokens`; in a
streamed OpenAI response the final usage satisfies that equation whenever
both counts are nonzero — when either count is zero or absent the emitted
total is the last recomputed sum (0 if none), not the sum of the counts.
Anthropic-dialect usage blocks carry no total at all. -/
theorem C3_total_tokens (f : OllamaStreamEvent) (content thinking : String)
    (inc inc2 : Bool) (evs : List OllamaStreamEvent) :
    ((convertToOpenAIResponse f content thinking inc).usage.total_tokens =
      (convertToOpenAIResponse f content thinking inc).usage.prompt_tokens +
      (convertToOpenAIResponse f content thinking inc).usage.completion_tokens) ∧
    (∀ fin u, OpenAIChunk.finalChunk fin u ∈ (openAIStreamRun inc2 evs).2 →
      u.prompt_tokens ≠ 0 → u.completion_tokens ≠ 0 →
      u.total_tokens = u.prompt_tokens + u.completion_tokens) :=
  ⟨rfl, openAIStreamRun_finalChunk_usage_prop inc2 evs⟩

/-- C3 (witness): the streamed equation at a concrete stream where both
counts are nonzero. -/
theorem C3_witness :
    OpenAIChunk.finalChunk "stop" ⟨3, 2, 5⟩ ∈
      (openAIStreamRun true
        [{ prompt_eval_count := some 3, eval_count := some 2, done := true }]).2 ∧
    (3 : Nat) ≠ 0 ∧ (2 : Nat) ≠ 0 ∧
    (⟨3, 2, 5⟩ : TokenUsage).total_tokens =
      (⟨3, 2, 5⟩ : TokenUsage).prompt_tokens +
      (⟨3, 2, 5⟩ : TokenUsage).completion_tokens := by
  have hmem : OpenAIChunk.finalChunk "stop" ⟨3, 2, 5⟩ ∈
      (openAIStreamRun true
        [{ prompt_eval_count := some 3, eval_count := some 2, done := true }]).2 := by
    have hlist : (openAIStreamRun true
        [{ prompt_eval_count := some 3, eval_count := some 2, done := true }]).2 =
        [.roleChunk, .finalChunk "stop" ⟨3, 2, 5⟩, .doneMarker] := rfl
    rw [hlist]
    simp
  exact ⟨hmem, by decide, by decide,
    (C3_total_tokens { done := true } "" "" true true
      [{ prompt_eval_count := some 3, eval_count := some 2, done := true }]).2
      "stop" ⟨3, 2, 5⟩ hmem (by decide) (by decide)⟩

/-- C2: for every backend event sequence ending with a `done: true` event,
the Anthropic translator's `content_block_start` indices are exactly
`0, 1, 2, ...` in order with no repeats; every started index receives
exactly one `content_block_stop`; no stop is emitted for an unstarted
index; and in every prefix of the emitted stream the stops for an index
never outnumber its starts (each stop comes after its start). -/
theorem C2_block_lifecycle (evs : List OllamaStreamEvent) (e : OllamaStreamEvent)
    (he : e.done = true) :
    startIndexList (anthRun (evs ++ [e])).2 =
      List.range (anthRun (evs ++ [e])).1.nextContentIndex ∧
    (∀ i, i ∈ startIndexList (anthRun (evs ++ [e])).2 →
      stopCount i (anthRun (evs ++ [e])).2 = 1) ∧
    (∀ i, i ∉ startIndexList (anthRun (evs ++ [e])).2 →
      stopCount i (anthRun (evs ++ [e])).2 = 0) ∧
    (∀ n i, stopCount i ((anthRun (evs ++ [e])).2.take n) ≤
      startCount i ((anthRun (evs ++ [e])).2.take n)) := by
  have hinv := anthRun_inv (evs ++ [e])
  have hsplit : (anthRun (evs ++ [e])).1 = (anthStep (anthRun evs).1 e).1 := by
    unfold anthRun
    rw [List.foldl_append]
    rfl
  have hflags := anthStep_done_flags (anthRun evs).1 e he
  refine ⟨hinv.starts, ?_, ?_, hinv.wf⟩
  · intro i hi
    rw [hinv.starts, List.mem_range] at hi
    rw [hinv.stops i]
    apply expectedStops_closed
    · rw [hsplit]; exact hflags.1
    · rw [hsplit]; exact hflags.2
    · exact hi
  · intro i hi
    rw [hinv.starts, List.mem_range] at hi
    rw [hinv.stops i]
    unfold expectedStops
    rw [if_neg hi]

/-- C2 (witness): the block lifecycle invariants on the stream consisting
of a single `done` event. -/
theorem C2_witness :
    ({ done := true } : OllamaStreamEvent).done = true ∧
    (startIndexList (anthRun ([] ++ [({ done := true } : OllamaStreamEvent)])).2 =
      List.range (anthRun ([] ++ [({ done := true } : OllamaStreamEvent)])).1.nextContentIndex ∧
    (∀ i, i ∈ startIndexList (anthRun ([] ++ [({ done := true } : OllamaStreamEvent)])).2 →
      stopCount i (anthRun ([] ++ [({ done := true } : OllamaStreamEvent)])).2 = 1) ∧
    (∀ i, i ∉ startIndexList (anthRun ([] ++ [({ done := true } : OllamaStreamEvent)])).2 →
      stopCount i (anthRun ([] ++ [({ done := true } : OllamaStreamEvent)])).2 = 0) ∧
    (∀ n i, stopCount i ((anthRun ([] ++ [({ done := true } : OllamaStreamEvent)])).2.take n) ≤
      startCount i ((anthRun ([] ++ [({ done := true } : OllamaStreamEvent)])).2.take n))) :=
  ⟨rfl, C2_block_lifecycle [] { done := true } rfl⟩

/-- C5 (counterexample): the claim says the thinking block gets the lower
index when a single event carries both thinking and content; the callback
processes `content` before `thinking`, so on such an event the text block
is opened at index 0 and the thinking block at index 1. -/
theorem C5_counterexample :
    (anthRun [{ message := some { thinking := some "t", content := some "c" } },
              { done := true }]).2 =
      [.messageStart,
       .blockStart 0 .text, .blockDelta 0 (.textDelta "c"),
       .blockStart 1 .thinking, .blockDelta 1 (.thinkingDelta "t"),
       .blockStop 1, .blockStop 0,
       .messageDelta "end_turn" 0 0, .messageStop, .doneEvent] ∧
    ¬ (1 : Nat) < 0 := ⟨rfl, by decide⟩

/-- C5 (amended): when a single backend event carries both non-empty
`thinking` and non-empty `content` and neither block has been opened yet,
the TEXT block is assigned the lower content-block index (content is
processed before thinking in the callback) and the thinking block the next
one; block indices are assigned in first-seen processing order and are
never reused within a request (the emitted start indices always form
`0, 1, 2, ...`). -/
theorem C5_block_index_order (s : AnthState) (ev : OllamaStreamEvent)
    (m : OllamaMessage) (c t : String)
    (hts : s.thinkingBlockStarted = false) (hxs : s.textBlockStarted = false)
    (hm : ev.message = some m) (hc : m.content = some c) (hcne : c ≠ "")
    (ht : m.thinking = some t) (htne : t ≠ "") :
    (∃ rest, startKindList (anthStep s ev).2 =
      (s.nextContentIndex, BlockKind.text) ::
      (s.nextContentIndex + 1, BlockKind.thinking) :: rest) ∧
    (∀ evs, startIndexList (anthRun evs).2 =
      List.range (anthRun evs).1.nextContentIndex) := by
  constructor
  · unfold anthStep
    simp only [anthContentPart_eq hm hc hcne, anthThinkingPart_eq hm ht htne,
               ensureTextBlock_of_not_started, ensureThinkingBlock_of_not_started,
               hxs, hts, startKindList_append, startKindList_anthSignaturePart,
               startKindList, List.filterMap_cons, List.filterMap_nil, Option.getD_some]
    exact ⟨_, rfl⟩
  · intro evs
    exact (anthRun_inv evs).starts

/-- C5 (witness): the same-event ordering at a concrete state and event. -/
theorem C5_witness :
    (({} : AnthState).thinkingBlockStarted = false) ∧
    (({} : AnthState).textBlockStarted = false) ∧
    (∃ rest, startKindList (anthStep {}
        { message := some { thinking := some "t", content := some "c" } }).2 =
      (({} : AnthState).nextContentIndex, BlockKind.text) ::
      (({} : AnthState).nextContentIndex + 1, BlockKind.thinking) :: rest) :=
  ⟨rfl, rfl,
    (C5_block_index_order {} { message := some { thinking := some "t", content := some "c" } }
      { thinking := some "t", content := some "c" } "c" "t"
      rfl rfl rfl rfl (by decide) rfl (by decide)).1⟩

end Ollama2OpenAI
